import Mathlib

/-!
Verification development for the language-statistics pipeline
(`src/datatrove/pipeline/stats/lang_stats.py`): the per-worker
`LanguageStatsCalculator` (collector) and the `LanguageStatsReducer`.

Modelling conventions:
* Python text is a `List Char`; Python `int` division producing `float`
  is modelled in `ℚ` (exact arithmetic; the code uses binary floats, so
  float-tolerance claims are read as exact-rational claims here).
* A raised Python exception is `Except.error` naming the exception class.
* `collections.Counter` (a multiset of keys with multiplicities) is
  modelled as `Multiset`; `counter[x] += 1` is multiset insertion and
  `Counter.__add__` / `+=` is multiset addition.
* The word tokenizer (`get_word_tokenizer(language).tokenize`) and
  `find_duplicates` (from `gopher_repetition_filter`, whose duplicated
  character count is taken at index `[1]`) are external to the statistics
  engine; they are passed as opaque function parameters `tok` and `dup`.
* Python field names such as `hash_word_ratio` are shortened to
  `hashWord` etc. (the original suffix is avoided for tooling reasons);
  each definition notes the Python name it embeds.
-/

/-- Python `string.punctuation`: the 32 ASCII punctuation characters.
The characters quote, backtick, brace-open, bar, brace-close are written
via `Char.ofNat` (codes 39, 96, 123, 124, 125). -/
def pyPunct : List Char :=
  ['!', '"', '#', '$', '%', '&', Char.ofNat 39, '(', ')', '*', '+', ',', '-', '.', '/',
   ':', ';', '<', '=', '>', '?', '@', '[', '\\', ']', '^', '_', Char.ofNat 96,
   Char.ofNat 123, Char.ofNat 124, Char.ofNat 125, '~']

/-- ASCII whitespace stripped by Python `str.strip` / `lstrip` / `rstrip`
(the model restricts to the ASCII whitespace characters). -/
def pyWs : List Char := [' ', '\t', '\n', '\r', Char.ofNat 11, Char.ofNat 12]

/-- Substring test on character lists: `sub.isSubOf s` holds when `sub`
occurs contiguously inside `s`.  This is Python `sub in s` on strings;
in particular `w in string.punctuation` is `isSubOf w pyPunct`. -/
def isSubOf : List Char → List Char → Bool
  | _, [] => false
  | sub, c :: rest => sub.isPrefixOf (c :: rest) || isSubOf sub rest

/-- Python `w in string.punctuation` for a token `w` (a substring test:
the empty token and multi-character runs of punctuation also pass).
Note `"" in s` is `True` in Python, which `isSubOf` misses for nonempty
`s`; tokens are never empty here (tokenizers strip empties), and the
filter in the code only drops tokens, so we add the empty-token case. -/
def isPunctToken (w : List Char) : Bool :=
  w.isEmpty || isSubOf w pyPunct

/-- Occurrences of a single character in a text (`text.count(c)` for a
one-character pattern). -/
def countChar (c : Char) (s : List Char) : ℕ :=
  (s.filter (fun x => x = c)).length

/-- Worker for `countOcc`: scan the text left to right; on a match of
the (nonempty) pattern, count it and skip the remaining `p.length - 1`
characters so occurrences do not overlap, as in Python `str.count`. -/
def countOccGo (p : List Char) : List Char → ℕ → ℕ
  | [], _ => 0
  | c :: rest, 0 =>
    if p.isPrefixOf (c :: rest) then 1 + countOccGo p rest (p.length - 1)
    else countOccGo p rest 0
  | _ :: rest, k + 1 => countOccGo p rest k

/-- Python `text.count(pattern)` for a nonempty pattern: the number of
non-overlapping occurrences, scanning left to right. -/
def countOcc (p : List Char) (s : List Char) : ℕ :=
  countOccGo p s 0

/-- Python `text.split("\n")`: always returns at least one piece. -/
def splitNl : List Char → List (List Char)
  | [] => [[]]
  | c :: rest =>
    match splitNl rest with
    | [] => [[]]
    | l :: ls => if c = '\n' then [] :: l :: ls else (c :: l) :: ls

/-- Python `text.splitlines()` (modelled for `\n` line boundaries only):
like `split("\n")` but the empty text gives `[]` and a trailing newline
does not contribute a final empty line. -/
def splitlines (s : List Char) : List (List Char) :=
  if s.isEmpty then []
  else if s.getLast? = some '\n' then (splitNl s).dropLast
  else splitNl s

/-- Python `line.lstrip()` (whitespace variant). -/
def lstripWs (l : List Char) : List Char := l.dropWhile (fun c => c ∈ pyWs)

/-- Python `line.rstrip()` (whitespace variant). -/
def rstripWs (l : List Char) : List Char := (l.reverse.dropWhile (fun c => c ∈ pyWs)).reverse

/-- One line of `s.lstrip().startswith("•") or s.lstrip().startswith("-")`. -/
def startsBullet (l : List Char) : Bool :=
  (lstripWs l).head? = some '•' || (lstripWs l).head? = some '-'

/-- One line of `s.rstrip().endswith("...") or s.rstrip().endswith("…")`. -/
def endsEllipsis (l : List Char) : Bool :=
  List.isSuffixOf ['.', '.', '.'] (rstripWs l) || (rstripWs l).getLast? = some '…'

/-- `line.endswith(stop_chars)` with `stop_chars = (".", "'", '"', "!", "?")`. -/
def endsStop (l : List Char) : Bool :=
  match l.getLast? with
  | some c => c ∈ ['.', Char.ofNat 39, '"', '!', '?']
  | none => false

/-- `line.strip() != ""`: the line has some non-whitespace character. -/
def isNonEmptyLine (l : List Char) : Bool := l.any (fun c => c ∉ pyWs)

/-- Python `any(c.isalpha() for c in w)` (modelled with ASCII `isAlpha`). -/
def hasAlpha (w : List Char) : Bool := w.any Char.isAlpha

/-- `len(text.encode("utf-8"))`. -/
def utf8Len (t : List Char) : ℕ := (t.map Char.utf8Size).sum

/-- `word.lower()` (modelled with `Char.toLower`). -/
def lowerWord (w : List Char) : List Char := w.map Char.toLower

/-- The nine ratio metrics of `lang_stats.py` in the order of
`MEAN_STD_KEYS` (Python names `hash_word_ratio`, `ellipsis_word_ratio`,
`bullet_start_ratio`, `ellipsis_end_ratio`, `alpha_ratio`,
`line_punct_ratio`, `short_line_ratio`, `duplicate_line_ratio`,
`new_line_ratio`). -/
inductive MetricKey
  | hashWord
  | ellipsisWord
  | bulletStart
  | ellipsisEnd
  | alpha
  | linePunct
  | shortLine
  | dupLine
  | newLine
deriving DecidableEq

/-- The nine per-document metric values computed for one document. -/
structure DocMetrics where
  hashWord : ℚ
  ellipsisWord : ℚ
  bulletStart : ℚ
  ellipsisEnd : ℚ
  alpha : ℚ
  linePunct : ℚ
  shortLine : ℚ
  dupLine : ℚ
  newLine : ℚ
deriving DecidableEq

/-- Uniform access to a `DocMetrics` field by `MetricKey`. -/
def DocMetrics.val (m : DocMetrics) : MetricKey → ℚ
  | .hashWord => m.hashWord
  | .ellipsisWord => m.ellipsisWord
  | .bulletStart => m.bulletStart
  | .ellipsisEnd => m.ellipsisEnd
  | .alpha => m.alpha
  | .linePunct => m.linePunct
  | .shortLine => m.shortLine
  | .dupLine => m.dupLine
  | .newLine => m.newLine

/-- Python `a / b` on nonnegative integers producing a float: raises
`ZeroDivisionError` when `b == 0`. -/
def pyDiv (a b : ℕ) : Except String ℚ :=
  if b = 0 then .error "ZeroDivisionError" else .ok ((a : ℚ) / (b : ℚ))

/-- The tokenizer capability (`get_word_tokenizer(language).tokenize`),
external to the engine. -/
abbrev Tok := List Char → List (List Char)

/-- The external `find_duplicates(non_empty_lines)[1]` capability: the
number of characters in duplicated lines. -/
abbrev DupFn := List (List Char) → ℕ

/-- The per-document metric computations of `LanguageStatsCalculator.run`
(lines 99-162), in source order.  The five Gopher metrics guard their
zero denominators with an explicit `if n > 0 ... else 0`;
`line_punct_ratio` and `short_line_ratio` divide by
`len(text.split("\n"))`; `duplicate_line_ratio` divides by
`len(doc.text.replace("\n", ""))` and `new_line_ratio` divides by the
length of the unfiltered token list `tokenizer.tokenize(text)`, all
four with Python `/` (modelled by `pyDiv`). -/
def computeMetrics (tok : Tok) (dup : DupFn) (text : List Char) : Except String DocMetrics :=
  let toks := tok text
  let words := toks.filter (fun w => !(isPunctToken w))
  let nWords := words.length
  let hashWord : ℚ := if nWords > 0 then (countChar '#' text : ℚ) / (nWords : ℚ) else 0
  let ellipsisWord : ℚ :=
    if nWords > 0 then ((countOcc ['.', '.', '.'] text + countChar '…' text : ℕ) : ℚ) / (nWords : ℚ)
    else 0
  let lines := splitlines text
  let nLines := lines.length
  let bulletStart : ℚ :=
    if nLines > 0 then ((lines.filter startsBullet).length : ℚ) / (nLines : ℚ) else 0
  let ellipsisEnd : ℚ :=
    if nLines > 0 then ((lines.filter endsEllipsis).length : ℚ) / (nLines : ℚ) else 0
  let alpha : ℚ :=
    if nWords > 0 then ((words.filter hasAlpha).length : ℚ) / (nWords : ℚ) else 0
  let lines2 := splitNl text
  match pyDiv (lines2.filter endsStop).length lines2.length with
  | .error e => .error e
  | .ok linePunct =>
  match pyDiv (lines2.filter (fun l => l.length ≤ 30)).length lines2.length with
  | .error e => .error e
  | .ok shortLine =>
  match pyDiv (dup (lines2.filter isNonEmptyLine)) (text.filter (fun c => c ≠ '\n')).length with
  | .error e => .error e
  | .ok dupLine =>
  match pyDiv (countChar '\n' text) toks.length with
  | .error e => .error e
  | .ok newLine => .ok {
      hashWord := hashWord, ellipsisWord := ellipsisWord, bulletStart := bulletStart,
      ellipsisEnd := ellipsisEnd, alpha := alpha, linePunct := linePunct,
      shortLine := shortLine, dupLine := dupLine, newLine := newLine }

/-- An input document: `doc.text` plus the categorical key
`doc.metadata.get(language_field)` (the metadata lookup itself is
outside the statistics engine and is modelled as a plain field). -/
structure Doc where
  text : List Char
  language : String
deriving DecidableEq

/-- Association map keyed by strings, modelling a Python `dict` (lookup
by key; `m[k] = v` replaces in place or appends a new key at the end,
preserving insertion order as Python dicts do). -/
def lookupA {α : Type} : List (String × α) → String → Option α
  | [], _ => none
  | p :: m, l => if p.1 = l then some p.2 else lookupA m l

/-- `m[k] = v` on the association map: replace if present, else append. -/
def setA {α : Type} : List (String × α) → String → α → List (String × α)
  | [], l, a => [(l, a)]
  | p :: m, l, a => if p.1 = l then (l, a) :: m else p :: setA m l a

/-- The per-language mutable state of `LanguageStatsCalculator.run`
(`stats[language]`, lines 82-97): two `Counter`s, three integer
counters, and one growing list of per-document values for each of the
nine ratio metrics. -/
structure LangState where
  lengthCounter : Multiset ℕ
  wordCounter : Multiset (List Char)
  totalWords : ℕ
  totalDocs : ℕ
  totalBytes : ℕ
  hashWordVals : List ℚ
  ellipsisWordVals : List ℚ
  bulletStartVals : List ℚ
  ellipsisEndVals : List ℚ
  alphaVals : List ℚ
  linePunctVals : List ℚ
  shortLineVals : List ℚ
  dupLineVals : List ℚ
  newLineVals : List ℚ
deriving DecidableEq

/-- Uniform access to the metric value list of a `LangState`. -/
def LangState.vals (st : LangState) : MetricKey → List ℚ
  | .hashWord => st.hashWordVals
  | .ellipsisWord => st.ellipsisWordVals
  | .bulletStart => st.bulletStartVals
  | .ellipsisEnd => st.ellipsisEndVals
  | .alpha => st.alphaVals
  | .linePunct => st.linePunctVals
  | .shortLine => st.shortLineVals
  | .dupLine => st.dupLineVals
  | .newLine => st.newLineVals

/-- The zero-initialised `stats[language]` entry (lines 82-97). -/
def emptyLangState : LangState :=
  { lengthCounter := 0, wordCounter := 0, totalWords := 0, totalDocs := 0, totalBytes := 0,
    hashWordVals := [], ellipsisWordVals := [], bulletStartVals := [], ellipsisEndVals := [],
    alphaVals := [], linePunctVals := [], shortLineVals := [], dupLineVals := [],
    newLineVals := [] }

/-- One document step of the collector loop (lines 80-162): look up (or
lazily create) the state for the document language, bump the counters
and histograms from the punctuation-filtered tokens, and append the nine
per-document metric values.  A `ZeroDivisionError` raised inside the
metric computations aborts the step; the in-place partial mutation the
Python code performs before the raise is unobservable (the abandoned
generator never writes its state), so the step is modelled atomically. -/
def updateDoc (tok : Tok) (dup : DupFn) (m : List (String × LangState)) (d : Doc) :
    Except String (List (String × LangState)) := do
  let st := (lookupA m d.language).getD emptyLangState
  let words := (tok d.text).filter (fun w => !(isPunctToken w))
  let mf ← computeMetrics tok dup d.text
  pure (setA m d.language
    { lengthCounter := st.lengthCounter + ↑(words.map List.length),
      wordCounter := st.wordCounter + ↑(words.map lowerWord),
      totalWords := st.totalWords + words.length,
      totalDocs := st.totalDocs + 1,
      totalBytes := st.totalBytes + utf8Len d.text,
      hashWordVals := st.hashWordVals ++ [mf.hashWord],
      ellipsisWordVals := st.ellipsisWordVals ++ [mf.ellipsisWord],
      bulletStartVals := st.bulletStartVals ++ [mf.bulletStart],
      ellipsisEndVals := st.ellipsisEndVals ++ [mf.ellipsisEnd],
      alphaVals := st.alphaVals ++ [mf.alpha],
      linePunctVals := st.linePunctVals ++ [mf.linePunct],
      shortLineVals := st.shortLineVals ++ [mf.shortLine],
      dupLineVals := st.dupLineVals ++ [mf.dupLine],
      newLineVals := st.newLineVals ++ [mf.newLine] })

/-- The collector generator loop (`for doc in data: ... yield doc`):
each document is yielded only after its statistics step succeeded; a
raised exception stops the generator, so the failing document and all
later ones are never emitted.  Returns the list of emitted documents
and either the final state or the propagated exception. -/
def calcLoop (tok : Tok) (dup : DupFn) :
    List (String × LangState) → List Doc → List Doc × Except String (List (String × LangState))
  | m, [] => ([], .ok m)
  | m, d :: ds =>
    match updateDoc tok dup m d with
    | .error e => ([], .error e)
    | .ok m2 =>
      let r := calcLoop tok dup m2 ds
      (d :: r.1, r.2)

/-- `np.mean(values)` over the collected list (exact arithmetic; the
reachable calls always have a nonempty list since every present key has
observed at least one document). -/
def listMean (xs : List ℚ) : ℚ := xs.sum / (xs.length : ℚ)

/-- `np.mean(values**2)`. -/
def listSqMean (xs : List ℚ) : ℚ := (xs.map (fun x => x ^ 2)).sum / (xs.length : ℚ)

/-- Word-counter pruning at finalize (lines 184-188): keep exactly the
entries whose count is at least the threshold, with their counts. -/
def pruneCounter (t : ℕ) (c : Multiset (List Char)) : Multiset (List Char) :=
  c.filter (fun w => t ≤ c.count w)

/-- The finalized per-language record the collector serializes
(lines 166-196) and the reducer parses back (`file_data[language]`):
counters, histograms (word counter pruned when `word_count_prune` is
not `None`; the default is `2`), and `(mean, mean_of_squares)` per
ratio metric (fields `{key}_mean` / `{key}_sq_mean`). -/
structure FileLang where
  lengthCounter : Multiset ℕ
  wordCounter : Multiset (List Char)
  totalWords : ℕ
  totalDocs : ℕ
  totalBytes : ℕ
  hashWordMean : ℚ
  ellipsisWordMean : ℚ
  bulletStartMean : ℚ
  ellipsisEndMean : ℚ
  alphaMean : ℚ
  linePunctMean : ℚ
  shortLineMean : ℚ
  dupLineMean : ℚ
  newLineMean : ℚ
  hashWordSqMean : ℚ
  ellipsisWordSqMean : ℚ
  bulletStartSqMean : ℚ
  ellipsisEndSqMean : ℚ
  alphaSqMean : ℚ
  linePunctSqMean : ℚ
  shortLineSqMean : ℚ
  dupLineSqMean : ℚ
  newLineSqMean : ℚ
deriving DecidableEq

/-- Uniform access to the `{key}_mean` field. -/
def FileLang.mean (f : FileLang) : MetricKey → ℚ
  | .hashWord => f.hashWordMean
  | .ellipsisWord => f.ellipsisWordMean
  | .bulletStart => f.bulletStartMean
  | .ellipsisEnd => f.ellipsisEndMean
  | .alpha => f.alphaMean
  | .linePunct => f.linePunctMean
  | .shortLine => f.shortLineMean
  | .dupLine => f.dupLineMean
  | .newLine => f.newLineMean

/-- Uniform access to the `{key}_sq_mean` field. -/
def FileLang.sqMean (f : FileLang) : MetricKey → ℚ
  | .hashWord => f.hashWordSqMean
  | .ellipsisWord => f.ellipsisWordSqMean
  | .bulletStart => f.bulletStartSqMean
  | .ellipsisEnd => f.ellipsisEndSqMean
  | .alpha => f.alphaSqMean
  | .linePunct => f.linePunctSqMean
  | .shortLine => f.shortLineSqMean
  | .dupLine => f.dupLineSqMean
  | .newLine => f.newLineSqMean

/-- Finalization of one language state (lines 166-188): compress each
metric value list to `(mean, mean_of_squares)` and optionally prune the
word counter (`prune = none` models `word_count_prune=None`; the
constructor default is `some 2`). -/
def finalizeLang (prune : Option ℕ) (st : LangState) : FileLang :=
  { lengthCounter := st.lengthCounter,
    wordCounter := match prune with | some t => pruneCounter t st.wordCounter | none => st.wordCounter,
    totalWords := st.totalWords,
    totalDocs := st.totalDocs,
    totalBytes := st.totalBytes,
    hashWordMean := listMean st.hashWordVals,
    ellipsisWordMean := listMean st.ellipsisWordVals,
    bulletStartMean := listMean st.bulletStartVals,
    ellipsisEndMean := listMean st.ellipsisEndVals,
    alphaMean := listMean st.alphaVals,
    linePunctMean := listMean st.linePunctVals,
    shortLineMean := listMean st.shortLineVals,
    dupLineMean := listMean st.dupLineVals,
    newLineMean := listMean st.newLineVals,
    hashWordSqMean := listSqMean st.hashWordVals,
    ellipsisWordSqMean := listSqMean st.ellipsisWordVals,
    bulletStartSqMean := listSqMean st.bulletStartVals,
    ellipsisEndSqMean := listSqMean st.ellipsisEndVals,
    alphaSqMean := listSqMean st.alphaVals,
    linePunctSqMean := listSqMean st.linePunctVals,
    shortLineSqMean := listSqMean st.shortLineVals,
    dupLineSqMean := listSqMean st.dupLineVals,
    newLineSqMean := listSqMean st.newLineVals }

/-- One artifact file written by the collector (lines 190-196): the
path is `/{language}/{rank:05d}.json` (modelled by the pair of language
and rank) and the content is `{language: stats[language]}` - a single
language key per file. -/
def calcFile (prune : Option ℕ) (rank : ℕ) (p : String × LangState) : String × ℕ × FileLang :=
  (p.1, rank, finalizeLang prune p.2)

/-- The whole collector run: the emitted downstream documents, and (on
success) the artifact files written at end of stream, one per language
seen by this worker. -/
def calcRun (tok : Tok) (dup : DupFn) (prune : Option ℕ) (rank : ℕ) (docs : List Doc) :
    List Doc × Except String (List (String × ℕ × FileLang)) :=
  let r := calcLoop tok dup [] docs
  (r.1, r.2.map (fun m => m.map (calcFile prune rank)))

/-- One parsed artifact file as seen by the reducer (`json.load(f)`,
line 234): a mapping from language to finalized statistics.  Files
written by the collector contain exactly one language each, but the
reducer iterates over every key of the mapping. -/
abbrev FileEntry := List (String × FileLang)

/-- The per-language merge accumulator of `LanguageStatsReducer.run`
(lines 236-258): summed counters and histograms, the collected lists of
per-file means (`stats[language][f"{key}_mean"]`) and of per-file
mean-of-squares (collected under `stats[language][f"{key}_std"]`), and
the companion `doc_count[language]` list of per-file `total_docs`
(merged into the same record here since the two dicts always share
their keys). -/
structure RedAcc where
  lengthCounter : Multiset ℕ
  wordCounter : Multiset (List Char)
  totalWords : ℕ
  totalDocs : ℕ
  totalBytes : ℕ
  hashWordMeans : List ℚ
  ellipsisWordMeans : List ℚ
  bulletStartMeans : List ℚ
  ellipsisEndMeans : List ℚ
  alphaMeans : List ℚ
  linePunctMeans : List ℚ
  shortLineMeans : List ℚ
  dupLineMeans : List ℚ
  newLineMeans : List ℚ
  hashWordSqs : List ℚ
  ellipsisWordSqs : List ℚ
  bulletStartSqs : List ℚ
  ellipsisEndSqs : List ℚ
  alphaSqs : List ℚ
  linePunctSqs : List ℚ
  shortLineSqs : List ℚ
  dupLineSqs : List ℚ
  newLineSqs : List ℚ
  docCounts : List ℕ
deriving DecidableEq

/-- Uniform access to the collected per-file means. -/
def RedAcc.means (a : RedAcc) : MetricKey → List ℚ
  | .hashWord => a.hashWordMeans
  | .ellipsisWord => a.ellipsisWordMeans
  | .bulletStart => a.bulletStartMeans
  | .ellipsisEnd => a.ellipsisEndMeans
  | .alpha => a.alphaMeans
  | .linePunct => a.linePunctMeans
  | .shortLine => a.shortLineMeans
  | .dupLine => a.dupLineMeans
  | .newLine => a.newLineMeans

/-- Uniform access to the collected per-file mean-of-squares. -/
def RedAcc.sqs (a : RedAcc) : MetricKey → List ℚ
  | .hashWord => a.hashWordSqs
  | .ellipsisWord => a.ellipsisWordSqs
  | .bulletStart => a.bulletStartSqs
  | .ellipsisEnd => a.ellipsisEndSqs
  | .alpha => a.alphaSqs
  | .linePunct => a.linePunctSqs
  | .shortLine => a.shortLineSqs
  | .dupLine => a.dupLineSqs
  | .newLine => a.newLineSqs

/-- The lazily-created zero entry for a newly seen language
(lines 237-248). -/
def emptyRedAcc : RedAcc :=
  { lengthCounter := 0, wordCounter := 0, totalWords := 0, totalDocs := 0, totalBytes := 0,
    hashWordMeans := [], ellipsisWordMeans := [], bulletStartMeans := [], ellipsisEndMeans := [],
    alphaMeans := [], linePunctMeans := [], shortLineMeans := [], dupLineMeans := [],
    newLineMeans := [],
    hashWordSqs := [], ellipsisWordSqs := [], bulletStartSqs := [], ellipsisEndSqs := [],
    alphaSqs := [], linePunctSqs := [], shortLineSqs := [], dupLineSqs := [], newLineSqs := [],
    docCounts := [] }

/-- Folding one artifact contribution for one language into its
accumulator (lines 249-258): add the counters and histograms, append
each metric mean and mean-of-squares, and append the file total_docs
to the weight list. -/
def addFileAcc (a : RedAcc) (f : FileLang) : RedAcc :=
  { lengthCounter := a.lengthCounter + f.lengthCounter,
    wordCounter := a.wordCounter + f.wordCounter,
    totalWords := a.totalWords + f.totalWords,
    totalDocs := a.totalDocs + f.totalDocs,
    totalBytes := a.totalBytes + f.totalBytes,
    hashWordMeans := a.hashWordMeans ++ [f.hashWordMean],
    ellipsisWordMeans := a.ellipsisWordMeans ++ [f.ellipsisWordMean],
    bulletStartMeans := a.bulletStartMeans ++ [f.bulletStartMean],
    ellipsisEndMeans := a.ellipsisEndMeans ++ [f.ellipsisEndMean],
    alphaMeans := a.alphaMeans ++ [f.alphaMean],
    linePunctMeans := a.linePunctMeans ++ [f.linePunctMean],
    shortLineMeans := a.shortLineMeans ++ [f.shortLineMean],
    dupLineMeans := a.dupLineMeans ++ [f.dupLineMean],
    newLineMeans := a.newLineMeans ++ [f.newLineMean],
    hashWordSqs := a.hashWordSqs ++ [f.hashWordSqMean],
    ellipsisWordSqs := a.ellipsisWordSqs ++ [f.ellipsisWordSqMean],
    bulletStartSqs := a.bulletStartSqs ++ [f.bulletStartSqMean],
    ellipsisEndSqs := a.ellipsisEndSqs ++ [f.ellipsisEndSqMean],
    alphaSqs := a.alphaSqs ++ [f.alphaSqMean],
    linePunctSqs := a.linePunctSqs ++ [f.linePunctSqMean],
    shortLineSqs := a.shortLineSqs ++ [f.shortLineSqMean],
    dupLineSqs := a.dupLineSqs ++ [f.dupLineSqMean],
    newLineSqs := a.newLineSqs ++ [f.newLineSqMean],
    docCounts := a.docCounts ++ [f.totalDocs] }

/-- The accumulator obtained from a sequence of contributions for one
language, in processing order. -/
def accOf (es : List FileLang) : RedAcc := es.foldl addFileAcc emptyRedAcc

/-- Pairwise merge of two partial per-language accumulators: counter
and histogram addition, concatenation of the collected moment lists.
This is the binary merge the specification describes when it speaks of
"repeated pairwise merge" of partition artifacts; the Python code
itself only ever folds files one at a time. -/
def mergeAcc (a b : RedAcc) : RedAcc :=
  { lengthCounter := a.lengthCounter + b.lengthCounter,
    wordCounter := a.wordCounter + b.wordCounter,
    totalWords := a.totalWords + b.totalWords,
    totalDocs := a.totalDocs + b.totalDocs,
    totalBytes := a.totalBytes + b.totalBytes,
    hashWordMeans := a.hashWordMeans ++ b.hashWordMeans,
    ellipsisWordMeans := a.ellipsisWordMeans ++ b.ellipsisWordMeans,
    bulletStartMeans := a.bulletStartMeans ++ b.bulletStartMeans,
    ellipsisEndMeans := a.ellipsisEndMeans ++ b.ellipsisEndMeans,
    alphaMeans := a.alphaMeans ++ b.alphaMeans,
    linePunctMeans := a.linePunctMeans ++ b.linePunctMeans,
    shortLineMeans := a.shortLineMeans ++ b.shortLineMeans,
    dupLineMeans := a.dupLineMeans ++ b.dupLineMeans,
    newLineMeans := a.newLineMeans ++ b.newLineMeans,
    hashWordSqs := a.hashWordSqs ++ b.hashWordSqs,
    ellipsisWordSqs := a.ellipsisWordSqs ++ b.ellipsisWordSqs,
    bulletStartSqs := a.bulletStartSqs ++ b.bulletStartSqs,
    ellipsisEndSqs := a.ellipsisEndSqs ++ b.ellipsisEndSqs,
    alphaSqs := a.alphaSqs ++ b.alphaSqs,
    linePunctSqs := a.linePunctSqs ++ b.linePunctSqs,
    shortLineSqs := a.shortLineSqs ++ b.shortLineSqs,
    dupLineSqs := a.dupLineSqs ++ b.dupLineSqs,
    newLineSqs := a.newLineSqs ++ b.newLineSqs,
    docCounts := a.docCounts ++ b.docCounts }

/-- A grouping of artifact contributions into repeated pairwise merges. -/
inductive MergeTree
  | leaf (f : FileLang)
  | node (l r : MergeTree)

/-- The contributions of a merge tree, left to right. -/
def MergeTree.toList : MergeTree → List FileLang
  | .leaf f => [f]
  | .node l r => l.toList ++ r.toList

/-- Reducing a grouping by repeated pairwise merges. -/
def treeAcc : MergeTree → RedAcc
  | .leaf f => addFileAcc emptyRedAcc f
  | .node l r => mergeAcc (treeAcc l) (treeAcc r)

/-- One `stats[language] ... +=` block for one language of one file
(lines 235-258): lazily create the zero accumulator, then fold the
contribution in. -/
def step1 (m : List (String × RedAcc)) (l : String) (f : FileLang) : List (String × RedAcc) :=
  setA m l (addFileAcc ((lookupA m l).getD emptyRedAcc) f)

/-- Processing one artifact file: fold every language key it contains. -/
def stepFile (m : List (String × RedAcc)) (fe : FileEntry) : List (String × RedAcc) :=
  fe.foldl (fun m p => step1 m p.1 p.2) m

/-- The reducer file loop (lines 232-258) over the discovered artifact
files, in listing order. -/
def reduceFiles (files : List FileEntry) : List (String × RedAcc) :=
  files.foldl stepFile []

/-- The contributions a single file makes to one language. -/
def entriesInFile (l : String) (fe : FileEntry) : List FileLang :=
  (fe.filter (fun p => p.1 = l)).map Prod.snd

/-- All contributions to one language across the files, in processing
order. -/
def entriesFor (l : String) : List FileEntry → List FileLang
  | [] => []
  | fe :: rest => entriesInFile l fe ++ entriesFor l rest

/-- The weighted-average value `np.average(vals, weights=ws)` computes
when the weights do not sum to zero. -/
def wavg (vals : List ℚ) (ws : List ℕ) : ℚ :=
  (List.zipWith (fun (v : ℚ) (w : ℕ) => v * (w : ℚ)) vals ws).sum / ((ws.sum : ℕ) : ℚ)

/-- `np.average(vals, weights=ws)`: raises `ZeroDivisionError` when the
weights sum to zero. -/
def npAverage (vals : List ℚ) (ws : List ℕ) : Except String ℚ :=
  if ws.sum = 0 then .error "ZeroDivisionError" else .ok (wavg vals ws)

/-- The merged per-language global aggregate after the averaging loop
(lines 260-266): counters, histograms, and per metric the weighted mean
`E[X]` together with the quantity `E[X2] - E[X]^2` that line 266 passes
to `np.sqrt`.  The square root itself is irrational in general and is
kept symbolic: the reported std is `np.sqrt` of the `Var` field, which
is NaN exactly when that field is negative (no clamping in the code). -/
structure LangResult where
  lengthCounter : Multiset ℕ
  wordCounter : Multiset (List Char)
  totalWords : ℕ
  totalDocs : ℕ
  totalBytes : ℕ
  hashWordMean : ℚ
  ellipsisWordMean : ℚ
  bulletStartMean : ℚ
  ellipsisEndMean : ℚ
  alphaMean : ℚ
  linePunctMean : ℚ
  shortLineMean : ℚ
  dupLineMean : ℚ
  newLineMean : ℚ
  hashWordVar : ℚ
  ellipsisWordVar : ℚ
  bulletStartVar : ℚ
  ellipsisEndVar : ℚ
  alphaVar : ℚ
  linePunctVar : ℚ
  shortLineVar : ℚ
  dupLineVar : ℚ
  newLineVar : ℚ
deriving DecidableEq

/-- Uniform access to the merged mean `E[X]`. -/
def LangResult.mean (r : LangResult) : MetricKey → ℚ
  | .hashWord => r.hashWordMean
  | .ellipsisWord => r.ellipsisWordMean
  | .bulletStart => r.bulletStartMean
  | .ellipsisEnd => r.ellipsisEndMean
  | .alpha => r.alphaMean
  | .linePunct => r.linePunctMean
  | .shortLine => r.shortLineMean
  | .dupLine => r.dupLineMean
  | .newLine => r.newLineMean

/-- Uniform access to the radicand `E[X2] - E[X]^2` handed to `np.sqrt`. -/
def LangResult.var (r : LangResult) : MetricKey → ℚ
  | .hashWord => r.hashWordVar
  | .ellipsisWord => r.ellipsisWordVar
  | .bulletStart => r.bulletStartVar
  | .ellipsisEnd => r.ellipsisEndVar
  | .alpha => r.alphaVar
  | .linePunct => r.linePunctVar
  | .shortLine => r.shortLineVar
  | .dupLine => r.dupLineVar
  | .newLine => r.newLineVar

/-- Whether `np.sqrt` applied to the variance radicand yields NaN:
exactly when the radicand is negative. -/
def stdIsNaN (r : LangResult) (k : MetricKey) : Bool := decide (r.var k < 0)

/-- Modelled from the spec: the clamped radicand
`max(Var[X], 0)` of `std = sqrt(max(Var[X], 0))` that section 4.3 of
the specification prescribes before the square root.  The code itself
(line 266) has no such clamp; this definition exists to compare the
code against the spec formula. -/
def specClampedRadicand (v : ℚ) : ℚ := max v 0

/-- The averaging loop of lines 260-266 for one language: every one of
the 18 `np.average` calls for this language shares the same weight list
`doc_count[language]`, so either all succeed or the first one raises
`ZeroDivisionError` (weights summing to zero), aborting the whole run;
the single guard below matches the code exactly. -/
def finalizeAcc (a : RedAcc) : Except String LangResult :=
  if a.docCounts.sum = 0 then .error "ZeroDivisionError"
  else .ok {
    lengthCounter := a.lengthCounter,
    wordCounter := a.wordCounter,
    totalWords := a.totalWords,
    totalDocs := a.totalDocs,
    totalBytes := a.totalBytes,
    hashWordMean := wavg a.hashWordMeans a.docCounts,
    ellipsisWordMean := wavg a.ellipsisWordMeans a.docCounts,
    bulletStartMean := wavg a.bulletStartMeans a.docCounts,
    ellipsisEndMean := wavg a.ellipsisEndMeans a.docCounts,
    alphaMean := wavg a.alphaMeans a.docCounts,
    linePunctMean := wavg a.linePunctMeans a.docCounts,
    shortLineMean := wavg a.shortLineMeans a.docCounts,
    dupLineMean := wavg a.dupLineMeans a.docCounts,
    newLineMean := wavg a.newLineMeans a.docCounts,
    hashWordVar := wavg a.hashWordSqs a.docCounts - (wavg a.hashWordMeans a.docCounts) ^ 2,
    ellipsisWordVar := wavg a.ellipsisWordSqs a.docCounts - (wavg a.ellipsisWordMeans a.docCounts) ^ 2,
    bulletStartVar := wavg a.bulletStartSqs a.docCounts - (wavg a.bulletStartMeans a.docCounts) ^ 2,
    ellipsisEndVar := wavg a.ellipsisEndSqs a.docCounts - (wavg a.ellipsisEndMeans a.docCounts) ^ 2,
    alphaVar := wavg a.alphaSqs a.docCounts - (wavg a.alphaMeans a.docCounts) ^ 2,
    linePunctVar := wavg a.linePunctSqs a.docCounts - (wavg a.linePunctMeans a.docCounts) ^ 2,
    shortLineVar := wavg a.shortLineSqs a.docCounts - (wavg a.shortLineMeans a.docCounts) ^ 2,
    dupLineVar := wavg a.dupLineSqs a.docCounts - (wavg a.dupLineMeans a.docCounts) ^ 2,
    newLineVar := wavg a.newLineSqs a.docCounts - (wavg a.newLineMeans a.docCounts) ^ 2 }

/-- The body of `LanguageStatsReducer.run` after the world-size assert:
fold all files, then finalize every accumulated language in insertion
order, propagating the first raised error (subsequent map/report layers
are outside the merge contract modelled here). -/
def reduceAndReport (files : List FileEntry) : Except String (List (String × LangResult)) :=
  (reduceFiles files).mapM (fun p => do pure (p.1, ← finalizeAcc p.2))

/-- `LanguageStatsReducer.run` (line 231): `assert world_size == 1`
raises `AssertionError` before any artifact is read or merged; with
`world_size == 1` the merge proceeds. -/
def reducerRun (world_size : ℕ) (files : List FileEntry) :
    Except String (List (String × LangResult)) :=
  if world_size = 1 then reduceAndReport files
  else .error "AssertionError: world_size must be 1 when getting the input from an input_folder"

/-- The merged mean for one language and metric, read off the reducer
state (`some (.error ...)` when finalization raises, `none` when the
language never appeared). -/
def reducedMeanAt (files : List FileEntry) (l : String) (k : MetricKey) :
    Option (Except String ℚ) :=
  (lookupA (reduceFiles files) l).map (fun a => (finalizeAcc a).map (fun r => r.mean k))

/-- The merged variance radicand (the argument line 266 passes to
`np.sqrt`) for one language and metric. -/
def reducedVarAt (files : List FileEntry) (l : String) (k : MetricKey) :
    Option (Except String ℚ) :=
  (lookupA (reduceFiles files) l).map (fun a => (finalizeAcc a).map (fun r => r.var k))

/-- The merged `E[X2]` for one language and metric (transient in the
code: it is overwritten by the std at line 266). -/
def mergedSqMeanAt (files : List FileEntry) (l : String) (k : MetricKey) : Option ℚ :=
  (lookupA (reduceFiles files) l).map (fun a => wavg (a.sqs k) a.docCounts)

/-- An artifact contribution whose moments are the exact mean and
mean-of-squares of a list of raw per-document values `vs`, weighted by
`total_docs = len(vs)`: the coupling invariant the artifact format is
supposed to maintain (histograms and byte counters are irrelevant to
the moment math and left zero). -/
def honestFL (vs : List ℚ) : FileLang :=
  { lengthCounter := 0, wordCounter := 0, totalWords := 0, totalDocs := vs.length, totalBytes := 0,
    hashWordMean := listMean vs, ellipsisWordMean := listMean vs, bulletStartMean := listMean vs,
    ellipsisEndMean := listMean vs, alphaMean := listMean vs, linePunctMean := listMean vs,
    shortLineMean := listMean vs, dupLineMean := listMean vs, newLineMean := listMean vs,
    hashWordSqMean := listSqMean vs, ellipsisWordSqMean := listSqMean vs,
    bulletStartSqMean := listSqMean vs, ellipsisEndSqMean := listSqMean vs,
    alphaSqMean := listSqMean vs, linePunctSqMean := listSqMean vs,
    shortLineSqMean := listSqMean vs, dupLineSqMean := listSqMean vs,
    newLineSqMean := listSqMean vs }

/-- An artifact contribution with given document count and identical
mean / mean-of-squares across the nine metrics (for concrete merge
scenarios). -/
def mkFL (docs : ℕ) (mean sq : ℚ) : FileLang :=
  { lengthCounter := 0, wordCounter := 0, totalWords := 0, totalDocs := docs, totalBytes := 0,
    hashWordMean := mean, ellipsisWordMean := mean, bulletStartMean := mean,
    ellipsisEndMean := mean, alphaMean := mean, linePunctMean := mean,
    shortLineMean := mean, dupLineMean := mean, newLineMean := mean,
    hashWordSqMean := sq, ellipsisWordSqMean := sq, bulletStartSqMean := sq,
    ellipsisEndSqMean := sq, alphaSqMean := sq, linePunctSqMean := sq,
    shortLineSqMean := sq, dupLineSqMean := sq, newLineSqMean := sq }

/-- Shard A of the concrete unequal-weights scenario:
`total_docs=10`, metric mean `0.2`, mean_sq `0.08`. -/
def shardA : FileLang := mkFL 10 (2/10) (8/100)

/-- Shard B of the concrete unequal-weights scenario:
`total_docs=30`, metric mean `0.4`, mean_sq `0.20`. -/
def shardB : FileLang := mkFL 30 (4/10) (20/100)

/-- The two artifact files of the concrete scenario, one language each. -/
def scenarioFiles : List FileEntry := [[("en", shardA)], [("en", shardB)]]

/-- An adversarial artifact whose mean-of-squares is smaller than the
square of its mean (`mean_sq < mean^2` cannot arise from exact moments
of real values, but nothing in the reducer validates it). -/
def inconsistentFL : FileLang := mkFL 1 1 0

/-- An artifact recording a language with `total_docs = 0`. -/
def zeroDocsFL : FileLang := mkFL 0 0 0

/-- A trivial tokenizer for concrete runs: the whole text is one token. -/
def tok0 : Tok := fun t => [t]

/-- A trivial duplicated-line counter for concrete runs. -/
def dup0 : DupFn := fun _ => 0

/-- A concrete well-formed document. -/
def docA : Doc := { text := ['a', 'b'], language := "en" }

/-- A concrete well-formed document in a second language. -/
def docDe : Doc := { text := ['c', 'd'], language := "de" }

/-- The empty-text document: `text.replace("\n", "")` is empty, so its
`duplicate_line_ratio` division raises `ZeroDivisionError`. -/
def docEmpty : Doc := { text := [], language := "en" }

/-- A tokenizer that returns one word token and one punctuation token,
regardless of the text. -/
def tokP : Tok := fun _ => [['a'], ['!']]

/-- Folding a further batch of per-language contributions onto an
optional accumulator: absent stays absent only when the batch is empty,
matching the lazy creation of `stats[language]` in the reducer. -/
def optStep (o : Option RedAcc) (es : List FileLang) : Option RedAcc :=
  match o with
  | some a => some (es.foldl addFileAcc a)
  | none => if es.isEmpty then none else some (es.foldl addFileAcc emptyRedAcc)

/-- The collector state for `"en"` after processing `docA` with `tok0`
and `dup0`: one document, one word of length 2, and the nine
per-document values `[0,0,0,0,1,0,1,0,0]`. -/
def st1 : LangState :=
  { lengthCounter := {2}, wordCounter := {['a', 'b']}, totalWords := 1, totalDocs := 1,
    totalBytes := 2,
    hashWordVals := [0], ellipsisWordVals := [0], bulletStartVals := [0], ellipsisEndVals := [0],
    alphaVals := [1], linePunctVals := [0], shortLineVals := [1], dupLineVals := [0],
    newLineVals := [0] }

/-! Helper lemmas. -/

theorem splitNl_ne_nil (s : List Char) : splitNl s ≠ [] := by
  cases s with
  | nil => simp [splitNl]
  | cons c rest =>
    cases h : splitNl rest with
    | nil => simp [splitNl, h]
    | cons l ls =>
      simp only [splitNl, h]
      split <;> simp

theorem splitNl_length_ne_zero (s : List Char) : (splitNl s).length ≠ 0 := by
  simpa using splitNl_ne_nil s
/-- C7: invoking the reducer with `world_size` greater than 1 fails with
the assertion error before any artifact is read or merged (the result
is the same error for every file list); with `world_size = 1` the check
passes and the merge body runs. -/
theorem c7_world_size_guard :
    (∀ (w : ℕ) (files : List FileEntry), 1 < w →
      reducerRun w files =
        .error "AssertionError: world_size must be 1 when getting the input from an input_folder")
    ∧ ∀ files : List FileEntry, reducerRun 1 files = reduceAndReport files := by
  constructor
  · intro w files hw
    have h : w ≠ 1 := by omega
    simp [reducerRun, h]
  · intro files
    simp [reducerRun]

/-- Witness for `c7_world_size_guard` at `world_size = 2`. -/
theorem c7_world_size_guard_witness :
    1 < 2 ∧ reducerRun 2 [] =
      .error "AssertionError: world_size must be 1 when getting the input from an input_folder" :=
  ⟨by decide, c7_world_size_guard.1 2 [] (by decide)⟩

/-- C8: pruning keeps exactly the entries whose count reaches the
threshold (with their exact counts); raising the threshold never
enlarges the pruned histogram (entry count); and an entry whose count
is at least the threshold is never removed. -/
theorem c8_prune_exact_monotone :
    (∀ (t : ℕ) (c : Multiset (List Char)) (w : List Char),
      (pruneCounter t c).count w = if t ≤ c.count w then c.count w else 0)
    ∧ (∀ (t₁ t₂ : ℕ) (c : Multiset (List Char)), t₁ ≤ t₂ →
      (pruneCounter t₂ c).toFinset.card ≤ (pruneCounter t₁ c).toFinset.card)
    ∧ (∀ (t : ℕ) (c : Multiset (List Char)) (w : List Char), t ≤ c.count w →
      (pruneCounter t c).count w = c.count w) := by
  refine ⟨?_, ?_, ?_⟩
  · intro t c w
    by_cases h : t ≤ c.count w
    · rw [pruneCounter, Multiset.count_filter, if_pos h]
    · rw [pruneCounter, Multiset.count_filter, if_neg h]
  · intro t₁ t₂ c h
    apply Finset.card_le_card
    intro w hw
    rw [Multiset.mem_toFinset, pruneCounter, Multiset.mem_filter] at hw ⊢
    exact ⟨hw.1, le_trans h hw.2⟩
  · intro t c w h
    rw [pruneCounter, Multiset.count_filter, if_pos h]

/-- Witness for `c8_prune_exact_monotone` on a concrete histogram. -/
theorem c8_prune_exact_monotone_witness :
    1 ≤ 2
    ∧ 2 ≤ Multiset.count ['a'] (↑[['a'], ['a'], ['b']] : Multiset (List Char))
    ∧ (pruneCounter 2 (↑[['a'], ['a'], ['b']] : Multiset (List Char))).toFinset.card ≤
        (pruneCounter 1 (↑[['a'], ['a'], ['b']] : Multiset (List Char))).toFinset.card
    ∧ (pruneCounter 2 (↑[['a'], ['a'], ['b']] : Multiset (List Char))).count ['a'] =
        (↑[['a'], ['a'], ['b']] : Multiset (List Char)).count ['a'] :=
  ⟨by decide, by decide,
   c8_prune_exact_monotone.2.1 1 2 _ (by decide),
   c8_prune_exact_monotone.2.2 2 _ ['a'] (by decide)⟩

/-- C3 counterexample: on the empty text the per-document update does
not record zeros - the `duplicate_line_ratio` division has denominator
`len("".replace("\n", "")) = 0` and raises `ZeroDivisionError` (for any
tokenizer: the failing division precedes the token-count division). -/
theorem c3_counterexample : computeMetrics tok0 dup0 [] = .error "ZeroDivisionError" := by
  rfl

/-- C3 amended: only the five Gopher ratio metrics define a zero value
when their words-or-lines denominator is zero; `line_punct_ratio` and
`short_line_ratio` always succeed because `text.split("\n")` is never
empty; but `duplicate_line_ratio` raises `ZeroDivisionError` whenever
the text has no non-newline character, and `new_line_ratio` raises
whenever the tokenizer returns no tokens, so computing the metrics of a
document (for example one with empty text) can raise. -/
theorem c3_zero_denominator_policy :
    ∀ (tok : Tok) (dup : DupFn) (text : List Char),
      ((text.filter (fun c => c ≠ '\n')).length = 0 →
        computeMetrics tok dup text = .error "ZeroDivisionError")
      ∧ ((text.filter (fun c => c ≠ '\n')).length ≠ 0 → (tok text).length = 0 →
        computeMetrics tok dup text = .error "ZeroDivisionError")
      ∧ ((text.filter (fun c => c ≠ '\n')).length ≠ 0 → (tok text).length ≠ 0 →
        (computeMetrics tok dup text).isOk = true)
      ∧ (∀ m, computeMetrics tok dup text = .ok m →
        (((tok text).filter (fun w => !(isPunctToken w))).length = 0 →
          m.hashWord = 0 ∧ m.ellipsisWord = 0 ∧ m.alpha = 0)
        ∧ ((splitlines text).length = 0 → m.bulletStart = 0 ∧ m.ellipsisEnd = 0)) := by
  intro tok dup text
  have hl2 : (splitNl text).length ≠ 0 := splitNl_length_ne_zero text
  refine ⟨?_, ?_, ?_, ?_⟩
  · intro h
    simp only [computeMetrics, pyDiv, if_neg hl2, if_pos h]
  · intro h1 h2
    simp only [computeMetrics, pyDiv, if_neg hl2, if_neg h1, if_pos h2]
  · intro h1 h2
    simp only [computeMetrics, pyDiv, if_neg hl2, if_neg h1, if_neg h2, Except.isOk, Except.toBool]
  · intro m hm
    by_cases h1 : (text.filter (fun c => c ≠ '\n')).length = 0
    · simp only [computeMetrics, pyDiv, if_neg hl2, if_pos h1] at hm
      exact absurd hm (by simp)
    · by_cases h2 : (tok text).length = 0
      · simp only [computeMetrics, pyDiv, if_neg hl2, if_neg h1, if_pos h2] at hm
        exact absurd hm (by simp)
      · simp only [computeMetrics, pyDiv, if_neg hl2, if_neg h1, if_neg h2, Except.ok.injEq] at hm
        constructor
        · intro hw
          simp [← hm, hw]
        · intro hl
          simp [← hm, hl]

/-- Witness for `c3_zero_denominator_policy`: the empty text satisfies
the zero-denominator hypothesis and the computation raises. -/
theorem c3_zero_denominator_policy_witness :
    (([] : List Char).filter (fun c => c ≠ '\n')).length = 0
    ∧ computeMetrics tok0 dup0 [] = .error "ZeroDivisionError" :=
  ⟨by decide, (c3_zero_denominator_policy tok0 dup0 []).1 (by decide)⟩

theorem lookupA_setA {α : Type} (m : List (String × α)) (l : String) (a : α) (l2 : String) :
    lookupA (setA m l a) l2 = if l = l2 then some a else lookupA m l2 := by
  induction m with
  | nil => simp [setA, lookupA]
  | cons p m ih =>
    by_cases hp : p.1 = l
    · by_cases h2 : l = l2
      · simp [setA, lookupA, hp, h2]
      · simp [setA, lookupA, hp, h2]
    · by_cases h2 : p.1 = l2
      · have h3 : l ≠ l2 := fun h => hp (h2.symm ▸ h ▸ rfl)
        simp [setA, lookupA, hp, h2, h3, Ne.symm h3]
      · simp [setA, lookupA, hp, h2, ih]

/-- C10: `new_line_ratio` divides the newline count by the length of
the full tokenizer output (line 160 re-tokenizes without the
punctuation filter), while the word-based ratios divide by the
punctuation-filtered token count, which is also what `total_words` is
incremented by; when at least one token is punctuation the two
denominators differ strictly. -/
theorem c10_newline_uses_unfiltered_tokens :
    ∀ (tok : Tok) (dup : DupFn) (text : List Char) (m : DocMetrics),
      computeMetrics tok dup text = .ok m →
      m.newLine = (countChar '\n' text : ℚ) / (((tok text).length : ℕ) : ℚ)
      ∧ (0 < ((tok text).filter (fun w => !(isPunctToken w))).length →
          m.hashWord = (countChar '#' text : ℚ) /
            ((((tok text).filter (fun w => !(isPunctToken w))).length : ℕ) : ℚ))
      ∧ ((∃ w ∈ tok text, isPunctToken w = true) →
          ((tok text).filter (fun w => !(isPunctToken w))).length < (tok text).length)
      ∧ (∀ (mm : List (String × LangState)) (lang : String) (m2 : List (String × LangState)),
          updateDoc tok dup mm { text := text, language := lang } = .ok m2 →
          (lookupA m2 lang).map (fun st => st.totalWords) =
            some (((lookupA mm lang).getD emptyLangState).totalWords +
              ((tok text).filter (fun w => !(isPunctToken w))).length)) := by
  intro tok dup text m hm
  have hl2 : (splitNl text).length ≠ 0 := splitNl_length_ne_zero text
  by_cases h1 : (text.filter (fun c => c ≠ '\n')).length = 0
  · simp only [computeMetrics, pyDiv, if_neg hl2, if_pos h1] at hm
    exact absurd hm (by simp)
  · by_cases h2 : (tok text).length = 0
    · simp only [computeMetrics, pyDiv, if_neg hl2, if_neg h1, if_pos h2] at hm
      exact absurd hm (by simp)
    · have hm2 := hm
      simp only [computeMetrics, pyDiv, if_neg hl2, if_neg h1, if_neg h2, Except.ok.injEq] at hm
      refine ⟨by simp [← hm], ?_, ?_, ?_⟩
      · intro hw
        simp [← hm, hw]
      · intro ⟨w, hw, hpw⟩
        rw [List.length_filter_lt_length_iff_exists]
        exact ⟨w, hw, by simp [hpw]⟩
      · intro mm lang mm2 hup
        simp only [updateDoc, hm2, Bind.bind, Except.bind, Pure.pure, Except.pure,
          Except.ok.injEq] at hup
        rw [← hup]
        simp [lookupA_setA]

/-- Witness for `c10_newline_uses_unfiltered_tokens` on a tokenization
with one word and one punctuation token. -/
theorem c10_newline_uses_unfiltered_tokens_witness :
    computeMetrics tokP dup0 ['a'] = .ok ⟨0, 0, 0, 0, 1, 0, 1, 0, 0⟩
    ∧ ((DocMetrics.mk 0 0 0 0 1 0 1 0 0).newLine =
        (countChar '\n' ['a'] : ℚ) / (((tokP ['a']).length : ℕ) : ℚ)
      ∧ (0 < ((tokP ['a']).filter (fun w => !(isPunctToken w))).length →
          (DocMetrics.mk 0 0 0 0 1 0 1 0 0).hashWord = (countChar '#' ['a'] : ℚ) /
            ((((tokP ['a']).filter (fun w => !(isPunctToken w))).length : ℕ) : ℚ))
      ∧ ((∃ w ∈ tokP ['a'], isPunctToken w = true) →
          ((tokP ['a']).filter (fun w => !(isPunctToken w))).length < (tokP ['a']).length)
      ∧ (∀ (mm : List (String × LangState)) (lang : String) (m2 : List (String × LangState)),
          updateDoc tokP dup0 mm { text := ['a'], language := lang } = .ok m2 →
          (lookupA m2 lang).map (fun st => st.totalWords) =
            some (((lookupA mm lang).getD emptyLangState).totalWords +
              ((tokP ['a']).filter (fun w => !(isPunctToken w))).length))) :=
  have h : computeMetrics tokP dup0 ['a'] = .ok ⟨0, 0, 0, 0, 1, 0, 1, 0, 0⟩ := by
    simp [computeMetrics, tokP, dup0, pyDiv, isPunctToken, isSubOf, List.isPrefixOf, splitNl,
      splitlines, countChar, countOcc, countOccGo, startsBullet, endsEllipsis, endsStop,
      isNonEmptyLine, hasAlpha, lstripWs, rstripWs, pyPunct, pyWs, List.filter, List.isSuffixOf]
  ⟨h, c10_newline_uses_unfiltered_tokens tokP dup0 ['a'] ⟨0, 0, 0, 0, 1, 0, 1, 0, 0⟩ h⟩

theorem calcLoop_append_ok (tok : Tok) (dup : DupFn) (pre rest : List Doc)
    (m m1 : List (String × LangState)) (h : calcLoop tok dup m pre = (pre, .ok m1)) :
    calcLoop tok dup m (pre ++ rest) =
      (pre ++ (calcLoop tok dup m1 rest).1, (calcLoop tok dup m1 rest).2) := by
  induction pre generalizing m with
  | nil =>
    rw [calcLoop] at h
    have hm : m = m1 := by
      have := congrArg Prod.snd h
      simpa using this
    subst hm
    simp
  | cons d ds ih =>
    rw [calcLoop] at h
    rw [show d :: ds ++ rest = d :: (ds ++ rest) from rfl, calcLoop]
    cases hu : updateDoc tok dup m d with
    | error e =>
      rw [hu] at h
      simp at h
    | ok m2 =>
      rw [hu] at h
      simp only [Prod.mk.injEq] at h
      have h1 : calcLoop tok dup m2 ds = (ds, Except.ok m1) := by
        rcases h with ⟨ha, hb⟩
        rcases h2 : calcLoop tok dup m2 ds with ⟨x, y⟩
        rw [h2] at ha hb
        simp at ha hb
        rw [ha, hb]
      simp only [h1, ih m2 h1, List.cons_append]

/-- C9: the collector yields a document only after its statistics step
succeeded; if the metric computation for a document raises, that
document and every later one are not emitted, the exception propagates,
and no artifact file is produced for the run. -/
theorem c9_failure_stops_stream :
    ∀ (tok : Tok) (dup : DupFn) (prune : Option ℕ) (rank : ℕ) (pre : List Doc) (d : Doc)
      (post : List Doc) (m1 : List (String × LangState)) (e : String),
      calcLoop tok dup [] pre = (pre, .ok m1) →
      updateDoc tok dup m1 d = .error e →
      calcRun tok dup prune rank (pre ++ d :: post) = (pre, .error e) := by
  intro tok dup prune rank pre d post m1 e hpre hd
  rw [calcRun, calcLoop_append_ok tok dup pre (d :: post) [] m1 hpre]
  simp [calcLoop, hd, Except.map]

/-- Witness for `c9_failure_stops_stream`: a good document, then the
empty-text document whose metrics raise, then another document; only
the first document is emitted and no artifact list is returned. -/
theorem c9_failure_stops_stream_witness :
    calcLoop tok0 dup0 [] [docA] = ([docA], .ok [("en", st1)])
    ∧ updateDoc tok0 dup0 [("en", st1)] docEmpty = .error "ZeroDivisionError"
    ∧ calcRun tok0 dup0 (some 2) 0 ([docA] ++ docEmpty :: [docA]) =
        ([docA], .error "ZeroDivisionError") :=
  have h1 : calcLoop tok0 dup0 [] [docA] = ([docA], .ok [("en", st1)]) := by
    simp [calcLoop, updateDoc, computeMetrics, tok0, dup0, pyDiv, isPunctToken, isSubOf,
      List.isPrefixOf, splitNl, splitlines, countChar, countOcc, countOccGo, startsBullet,
      endsEllipsis, endsStop, isNonEmptyLine, hasAlpha, lstripWs, rstripWs, pyPunct, pyWs,
      List.filter, List.isSuffixOf, docA, st1, setA, lookupA, emptyLangState, utf8Len,
      lowerWord, Except.pure]
    decide
  have h2 : updateDoc tok0 dup0 [("en", st1)] docEmpty = .error "ZeroDivisionError" := by rfl
  ⟨h1, h2, c9_failure_stops_stream tok0 dup0 (some 2) 0 [docA] docEmpty [docA]
    [("en", st1)] "ZeroDivisionError" h1 h2⟩

theorem lookupA_mem {α : Type} (m : List (String × α)) (l : String) (a : α)
    (h : lookupA m l = some a) : (l, a) ∈ m := by
  induction m with
  | nil => simp [lookupA] at h
  | cons p m ih =>
    rw [lookupA] at h
    by_cases hp : p.1 = l
    · rw [if_pos hp] at h
      have ha : p.2 = a := by simpa using h
      have hpa : p = (l, a) := Prod.ext hp ha
      rw [← hpa]
      exact List.mem_cons_self p m
    · rw [if_neg hp] at h
      exact List.mem_cons_of_mem _ (ih h)

theorem mem_setA {α : Type} (m : List (String × α)) (l : String) (a : α) (p : String × α)
    (h : p ∈ setA m l a) : p = (l, a) ∨ p ∈ m := by
  induction m with
  | nil => simpa [setA] using h
  | cons q m ih =>
    rw [setA] at h
    by_cases hq : q.1 = l
    · rw [if_pos hq] at h
      rcases List.mem_cons.mp h with h1 | h1
      · exact Or.inl h1
      · exact Or.inr (List.mem_cons_of_mem _ h1)
    · rw [if_neg hq] at h
      rcases List.mem_cons.mp h with h1 | h1
      · exact Or.inr (h1 ▸ List.mem_cons_self q m)
      · rcases ih h1 with h2 | h2
        · exact Or.inl h2
        · exact Or.inr (List.mem_cons_of_mem _ h2)

theorem keys_setA {α : Type} (m : List (String × α)) (l : String) (a : α) :
    (setA m l a).map Prod.fst =
      if l ∈ m.map Prod.fst then m.map Prod.fst else m.map Prod.fst ++ [l] := by
  induction m with
  | nil => simp [setA]
  | cons p m ih =>
    by_cases hp : p.1 = l
    · simp [setA, hp]
    · have hne : ¬l = p.1 := fun h => hp h.symm
      by_cases hm : l ∈ m.map Prod.fst
      · simp [setA, hp, hm, hne, ih]
      · simp [setA, hp, hm, hne, ih]

theorem updateDoc_ok_shape (tok : Tok) (dup : DupFn) (m : List (String × LangState)) (d : Doc)
    (m2 : List (String × LangState)) (h : updateDoc tok dup m d = .ok m2) :
    ∃ st : LangState, m2 = setA m d.language st
      ∧ st.totalDocs = ((lookupA m d.language).getD emptyLangState).totalDocs + 1 := by
  cases hc : computeMetrics tok dup d.text with
  | error e =>
    rw [updateDoc] at h
    simp only [hc] at h
    simp [Bind.bind, Except.bind] at h
  | ok mf =>
    rw [updateDoc] at h
    simp only [hc, Bind.bind, Except.bind, Pure.pure, Except.pure, Except.ok.injEq] at h
    exact ⟨_, h.symm, rfl⟩

theorem calcLoop_ok_keys (tok : Tok) (dup : DupFn) (docs : List Doc)
    (m m2 : List (String × LangState)) (h : (calcLoop tok dup m docs).2 = .ok m2) (l : String) :
    l ∈ m2.map Prod.fst ↔ (l ∈ m.map Prod.fst ∨ l ∈ docs.map Doc.language) := by
  induction docs generalizing m with
  | nil =>
    rw [calcLoop] at h
    simp at h
    simp [h]
  | cons d ds ih =>
    rw [calcLoop] at h
    cases hu : updateDoc tok dup m d with
    | error e =>
      rw [hu] at h
      simp at h
    | ok mm =>
      rw [hu] at h
      simp only at h
      rcases updateDoc_ok_shape tok dup m d mm hu with ⟨st, hshape, _⟩
      have hkeys := keys_setA m d.language st
      rw [ih mm h]
      subst hshape
      rw [hkeys]
      by_cases hmem : d.language ∈ m.map Prod.fst
      · simp only [if_pos hmem]
        constructor
        · intro h1
          rcases h1 with h1 | h1
          · exact Or.inl h1
          · exact Or.inr (List.mem_cons_of_mem _ h1)
        · intro h1
          rcases h1 with h1 | h1
          · exact Or.inl h1
          · rcases List.mem_cons.mp h1 with h2 | h2
            · exact Or.inl (h2 ▸ hmem)
            · exact Or.inr h2
      · simp only [if_neg hmem]
        simp only [List.mem_append, List.mem_singleton, List.map_cons, List.mem_cons]
        tauto

theorem calcLoop_ok_nodup (tok : Tok) (dup : DupFn) (docs : List Doc)
    (m m2 : List (String × LangState)) (h : (calcLoop tok dup m docs).2 = .ok m2)
    (hnd : (m.map Prod.fst).Nodup) : (m2.map Prod.fst).Nodup := by
  induction docs generalizing m with
  | nil =>
    rw [calcLoop] at h
    simp at h
    exact h ▸ hnd
  | cons d ds ih =>
    rw [calcLoop] at h
    cases hu : updateDoc tok dup m d with
    | error e =>
      rw [hu] at h
      simp at h
    | ok mm =>
      rw [hu] at h
      simp only at h
      rcases updateDoc_ok_shape tok dup m d mm hu with ⟨st, hshape, _⟩
      apply ih mm h
      subst hshape
      rw [keys_setA]
      by_cases hmem : d.language ∈ m.map Prod.fst
      · simpa [if_pos hmem] using hnd
      · rw [if_neg hmem]
        simp [List.nodup_append, hnd, hmem]

theorem calcLoop_ok_docsPos (tok : Tok) (dup : DupFn) (docs : List Doc)
    (m m2 : List (String × LangState)) (h : (calcLoop tok dup m docs).2 = .ok m2)
    (hinv : ∀ p ∈ m, 1 ≤ p.2.totalDocs) : ∀ p ∈ m2, 1 ≤ p.2.totalDocs := by
  induction docs generalizing m with
  | nil =>
    rw [calcLoop] at h
    simp at h
    exact h ▸ hinv
  | cons d ds ih =>
    rw [calcLoop] at h
    cases hu : updateDoc tok dup m d with
    | error e =>
      rw [hu] at h
      simp at h
    | ok mm =>
      rw [hu] at h
      simp only at h
      rcases updateDoc_ok_shape tok dup m d mm hu with ⟨st, hshape, hdocs⟩
      apply ih mm h
      subst hshape
      intro p hp
      rcases mem_setA m d.language st p hp with h1 | h1
      · rw [h1]
        simp only [hdocs]
        omega
      · exact hinv p h1

/-- C5 counterexample: a worker that saw two languages writes two
artifact files (path `/{language}/{rank:05d}.json`, one per language),
not the single per-worker file the claim describes. -/
theorem c5_counterexample :
    Except.map List.length (calcRun tok0 dup0 (some 2) 0 [docA, docDe]).2 = .ok 2
    ∧ (2 : ℕ) ≠ 1 := by
  constructor
  · simp [calcRun, calcLoop, updateDoc, computeMetrics, tok0, dup0, pyDiv, isPunctToken,
      isSubOf, List.isPrefixOf, splitNl, splitlines, countChar, countOcc, countOccGo,
      startsBullet, endsEllipsis, endsStop, isNonEmptyLine, hasAlpha, lstripWs, rstripWs,
      pyPunct, pyWs, List.filter, List.isSuffixOf, docA, docDe, setA, lookupA,
      emptyLangState, utf8Len, lowerWord, Except.pure, Except.map, calcFile]
  · decide

/-- C5 amended: at end of stream the collector writes one artifact file
per categorical key it saw (each file holding exactly that key), all
tagged with the rank of the worker; the keys of the emitted files are
exactly the languages of the processed documents, without duplicates. -/
theorem c5_one_file_per_language :
    ∀ (tok : Tok) (dup : DupFn) (prune : Option ℕ) (rank : ℕ) (docs : List Doc)
      (files : List (String × ℕ × FileLang)),
      (calcRun tok dup prune rank docs).2 = .ok files →
      (files.map Prod.fst).Nodup
      ∧ (∀ l, l ∈ files.map Prod.fst ↔ l ∈ docs.map Doc.language)
      ∧ ∀ f ∈ files, f.2.1 = rank := by
  intro tok dup prune rank docs files h
  rw [calcRun] at h
  cases hr : (calcLoop tok dup [] docs).2 with
  | error e =>
    rw [hr] at h
    simp [Except.map] at h
  | ok m2 =>
    rw [hr] at h
    simp only [Except.map, Except.ok.injEq] at h
    have hkeys : files.map Prod.fst = m2.map Prod.fst := by
      rw [← h, List.map_map]
      rfl
    refine ⟨?_, ?_, ?_⟩
    · rw [hkeys]
      exact calcLoop_ok_nodup tok dup docs [] m2 hr (by simp)
    · intro l
      rw [hkeys, calcLoop_ok_keys tok dup docs [] m2 hr l]
      simp
    · intro f hf
      rw [← h] at hf
      rcases List.mem_map.mp hf with ⟨p, _, hp⟩
      rw [← hp]
      rfl

/-- Witness for `c5_one_file_per_language` on a one-document run. -/
theorem c5_one_file_per_language_witness :
    (calcRun tok0 dup0 (some 2) 0 [docA]).2 = .ok [("en", 0, finalizeLang (some 2) st1)]
    ∧ (([("en", 0, finalizeLang (some 2) st1)].map Prod.fst).Nodup
      ∧ (∀ l, l ∈ [("en", 0, finalizeLang (some 2) st1)].map Prod.fst ↔
          l ∈ [docA].map Doc.language)
      ∧ ∀ f ∈ [("en", 0, finalizeLang (some 2) st1)], f.2.1 = 0) :=
  have h : (calcRun tok0 dup0 (some 2) 0 [docA]).2 =
      .ok [("en", 0, finalizeLang (some 2) st1)] := by
    simp [calcRun, calcLoop, updateDoc, computeMetrics, tok0, dup0, pyDiv, isPunctToken,
      isSubOf, List.isPrefixOf, splitNl, splitlines, countChar, countOcc, countOccGo,
      startsBullet, endsEllipsis, endsStop, isNonEmptyLine, hasAlpha, lstripWs, rstripWs,
      pyPunct, pyWs, List.filter, List.isSuffixOf, docA, setA, lookupA, emptyLangState,
      utf8Len, lowerWord, Except.pure, Except.map, calcFile, st1,
      show Char.utf8Size 'a' = 1 from by decide, show Char.utf8Size 'b' = 1 from by decide]
  ⟨h, c5_one_file_per_language tok0 dup0 (some 2) 0 [docA] _ h⟩

theorem addFileAcc_docCounts_sum (a : RedAcc) (f : FileLang) :
    (addFileAcc a f).docCounts.sum = a.docCounts.sum + f.totalDocs := by
  simp [addFileAcc]

theorem step1_docs_inv (m : List (String × RedAcc)) (l : String) (f : FileLang)
    (hinv : ∀ p ∈ m, p.2.totalDocs = p.2.docCounts.sum) :
    ∀ p ∈ step1 m l f, p.2.totalDocs = p.2.docCounts.sum := by
  intro p hp
  rcases mem_setA _ _ _ p hp with h1 | h1
  · rw [h1]
    have hbase : ((lookupA m l).getD emptyRedAcc).totalDocs =
        ((lookupA m l).getD emptyRedAcc).docCounts.sum := by
      cases hl : lookupA m l with
      | none => rfl
      | some a => simpa using hinv (l, a) (lookupA_mem m l a hl)
    show (addFileAcc _ f).totalDocs = (addFileAcc _ f).docCounts.sum
    rw [addFileAcc_docCounts_sum, ← hbase]
    rfl
  · exact hinv p h1

theorem stepFile_docs_inv (fe : FileEntry) (m : List (String × RedAcc))
    (hinv : ∀ p ∈ m, p.2.totalDocs = p.2.docCounts.sum) :
    ∀ p ∈ stepFile m fe, p.2.totalDocs = p.2.docCounts.sum := by
  induction fe generalizing m with
  | nil => simpa [stepFile] using hinv
  | cons q fe ih =>
    rw [stepFile, List.foldl_cons]
    exact ih (step1 m q.1 q.2) (step1_docs_inv m q.1 q.2 hinv)

theorem reduceFiles_docs_inv (files : List FileEntry) :
    ∀ p ∈ reduceFiles files, p.2.totalDocs = p.2.docCounts.sum := by
  rw [reduceFiles]
  have hgen : ∀ (fs : List FileEntry) (m : List (String × RedAcc)),
      (∀ p ∈ m, p.2.totalDocs = p.2.docCounts.sum) →
      ∀ p ∈ fs.foldl stepFile m, p.2.totalDocs = p.2.docCounts.sum := by
    intro fs
    induction fs with
    | nil => intro m hm; simpa using hm
    | cons fe fs ih =>
      intro m hm
      rw [List.foldl_cons]
      exact ih (stepFile m fe) (stepFile_docs_inv fe m hm)
  exact hgen files [] (by simp)

/-- C6 counterexample: fed an artifact with `total_docs = 0`, the
reducer does not mark the ratio metrics "undefined" - `np.average`
raises `ZeroDivisionError` (weights sum to zero). -/
theorem c6_counterexample :
    Option.map finalizeAcc (lookupA (reduceFiles [[("en", zeroDocsFL)]]) "en") =
      some (.error "ZeroDivisionError") := by rfl

/-- C6 amended: every key present in a collector artifact has
`total_docs` at least 1 (a running aggregate for a key exists only
after a document of that key was seen); in the reducer the merged `total_docs` equals the sum of the per-file weights, and a key
whose weights sum to zero makes finalization raise `ZeroDivisionError`
rather than reporting an explicit "undefined". -/
theorem c6_zero_docs_behaviour :
    (∀ (tok : Tok) (dup : DupFn) (prune : Option ℕ) (rank : ℕ) (docs : List Doc)
      (files : List (String × ℕ × FileLang)),
      (calcRun tok dup prune rank docs).2 = .ok files →
      ∀ f ∈ files, 1 ≤ f.2.2.totalDocs)
    ∧ (∀ (files : List FileEntry) (l : String) (a : RedAcc),
      lookupA (reduceFiles files) l = some a → a.totalDocs = a.docCounts.sum)
    ∧ (∀ a : RedAcc, a.docCounts.sum = 0 → finalizeAcc a = .error "ZeroDivisionError") := by
  refine ⟨?_, ?_, ?_⟩
  · intro tok dup prune rank docs files h f hf
    rw [calcRun] at h
    cases hr : (calcLoop tok dup [] docs).2 with
    | error e =>
      rw [hr] at h
      simp [Except.map] at h
    | ok m2 =>
      rw [hr] at h
      simp only [Except.map, Except.ok.injEq] at h
      rw [← h] at hf
      rcases List.mem_map.mp hf with ⟨p, hpm, hp⟩
      have := calcLoop_ok_docsPos tok dup docs [] m2 hr (by simp) p hpm
      rw [← hp]
      exact this
  · intro files l a hl
    exact reduceFiles_docs_inv files (l, a) (lookupA_mem _ l a hl)
  · intro a ha
    rw [finalizeAcc, if_pos ha]

/-- Witness for `c6_zero_docs_behaviour` on the zero-document artifact. -/
theorem c6_zero_docs_behaviour_witness :
    lookupA (reduceFiles [[("en", zeroDocsFL)]]) "en" = some (addFileAcc emptyRedAcc zeroDocsFL)
    ∧ (addFileAcc emptyRedAcc zeroDocsFL).totalDocs =
        (addFileAcc emptyRedAcc zeroDocsFL).docCounts.sum
    ∧ (addFileAcc emptyRedAcc zeroDocsFL).docCounts.sum = 0
    ∧ finalizeAcc (addFileAcc emptyRedAcc zeroDocsFL) = .error "ZeroDivisionError" :=
  have hl : lookupA (reduceFiles [[("en", zeroDocsFL)]]) "en" =
      some (addFileAcc emptyRedAcc zeroDocsFL) := by rfl
  have hs : (addFileAcc emptyRedAcc zeroDocsFL).docCounts.sum = 0 := by rfl
  ⟨hl, c6_zero_docs_behaviour.2.1 [[("en", zeroDocsFL)]] "en" _ hl, hs,
    c6_zero_docs_behaviour.2.2 _ hs⟩

theorem zipWith_cast_mul {α : Type} (f : α → ℚ) (g : α → ℕ) (es : List α) :
    List.zipWith (fun (v : ℚ) (w : ℕ) => v * (w : ℚ)) (es.map f) (es.map g) =
      es.map (fun e => f e * ((g e : ℕ) : ℚ)) := by
  induction es with
  | nil => rfl
  | cons e es ih => simp [ih]

theorem listMean_mul_length (vs : List ℚ) : listMean vs * (vs.length : ℚ) = vs.sum := by
  cases vs with
  | nil => simp [listMean]
  | cons v vs =>
    rw [listMean]
    have h : ((v :: vs).length : ℚ) ≠ 0 := by
      simp only [List.length_cons]
      push_cast
      positivity
    exact div_mul_cancel₀ _ h

theorem wavg_of_means (valss : List (List ℚ)) :
    wavg (valss.map listMean) (valss.map List.length) = listMean valss.flatten := by
  rw [wavg, listMean, zipWith_cast_mul]
  have hnum : valss.map (fun vs => listMean vs * ((vs.length : ℕ) : ℚ)) =
      valss.map List.sum :=
    List.map_congr_left (fun vs _ => listMean_mul_length vs)
  rw [hnum]
  congr 1
  · rw [List.sum_flatten]
  · rw [List.length_flatten]

theorem listSqMean_eq_mean_map (vs : List ℚ) :
    listSqMean vs = listMean (vs.map (fun x => x ^ 2)) := by
  rw [listSqMean, listMean, List.length_map]

theorem wavg_of_sqMeans (valss : List (List ℚ)) :
    wavg (valss.map listSqMean) (valss.map List.length) = listSqMean valss.flatten := by
  have h1 : valss.map listSqMean = (valss.map (List.map (fun x => x ^ 2))).map listMean := by
    rw [List.map_map]
    exact List.map_congr_left (fun vs _ => listSqMean_eq_mean_map vs)
  have h2 : valss.map List.length = (valss.map (List.map (fun x => x ^ 2))).map List.length := by
    rw [List.map_map]
    simp
  rw [h1, h2, wavg_of_means, listSqMean_eq_mean_map, List.map_flatten]

theorem sq_sum_le (vs : List ℚ) :
    vs.sum ^ 2 ≤ (vs.length : ℚ) * (vs.map (fun x => x ^ 2)).sum := by
  induction vs with
  | nil => simp
  | cons a vs ih =>
    cases vs with
    | nil => simp
    | cons b t =>
      simp only [List.sum_cons, List.map_cons, List.length_cons] at ih ⊢
      push_cast at ih ⊢
      have hn0 : (0 : ℚ) ≤ (t.length : ℚ) := by positivity
      have hn1 : (1 : ℚ) ≤ (t.length : ℚ) + 1 := by linarith
      nlinarith [ih, sq_nonneg (((t.length : ℚ) + 1) * a - (b + t.sum)), hn0, hn1,
        sq_nonneg (b + t.sum)]

theorem listVar_nonneg (vs : List ℚ) : 0 ≤ listSqMean vs - listMean vs ^ 2 := by
  cases vs with
  | nil => simp [listSqMean, listMean]
  | cons a l =>
    have hn : (0 : ℚ) < ((a :: l).length : ℚ) := by
      simp only [List.length_cons]
      positivity
    rw [listSqMean, listMean, sub_nonneg, div_pow, div_le_div_iff₀ (by positivity) hn]
    have h := sq_sum_le (a :: l)
    nlinarith [h, hn]

/-- C1: the weighted-moment combination `np.average(..., weights=doc_count)`
reproduces the mean and mean-of-squares of the concatenated raw values
whenever each artifact contributes the exact moments of its own value
list weighted by its length; and on the concrete unequal-weights
scenario (10 docs at mean 0.2 / mean_sq 0.08 merged with 30 docs at
mean 0.4 / mean_sq 0.20) the reducer produces merged mean 0.35,
mean-of-squares 0.17, variance 0.0475, whose square root lies strictly
between 0.2179 and 0.2180 (std is approximately 0.2179). -/
theorem c1_weighted_merge_reproduces_concatenation :
    (∀ valss : List (List ℚ), valss.flatten ≠ [] →
      npAverage (valss.map listMean) (valss.map List.length) = .ok (listMean valss.flatten)
      ∧ npAverage (valss.map listSqMean) (valss.map List.length) =
          .ok (listSqMean valss.flatten))
    ∧ reducedMeanAt scenarioFiles "en" .hashWord = some (.ok (35 / 100))
    ∧ mergedSqMeanAt scenarioFiles "en" .hashWord = some (17 / 100)
    ∧ reducedVarAt scenarioFiles "en" .hashWord = some (.ok (475 / 10000))
    ∧ ((2179 / 10000 : ℚ) ^ 2 < 475 / 10000 ∧ (475 / 10000 : ℚ) < (2180 / 10000 : ℚ) ^ 2) := by
  refine ⟨?_, ?_, ?_, ?_, by norm_num, by norm_num⟩
  · intro valss hne
    have hlen : ((valss.map List.length).sum) ≠ 0 := by
      intro h0
      apply hne
      rw [← List.length_eq_zero, List.length_flatten]
      exact h0
    rw [npAverage, if_neg hlen, npAverage, if_neg hlen, wavg_of_means, wavg_of_sqMeans]
    exact ⟨rfl, rfl⟩
  · rw [reducedMeanAt]
    norm_num [reduceFiles, stepFile, step1, setA, lookupA, addFileAcc, emptyRedAcc,
      scenarioFiles, shardA, shardB, mkFL, finalizeAcc, wavg, LangResult.mean, RedAcc.means,
      Except.map, List.foldl, List.zipWith]
  · rw [mergedSqMeanAt]
    norm_num [reduceFiles, stepFile, step1, setA, lookupA, addFileAcc, emptyRedAcc,
      scenarioFiles, shardA, shardB, mkFL, wavg, RedAcc.sqs, List.foldl, List.zipWith]
  · rw [reducedVarAt]
    norm_num [reduceFiles, stepFile, step1, setA, lookupA, addFileAcc, emptyRedAcc,
      scenarioFiles, shardA, shardB, mkFL, finalizeAcc, wavg, LangResult.var, RedAcc.means,
      RedAcc.sqs, Except.map, List.foldl, List.zipWith]

/-- Witness for `c1_weighted_merge_reproduces_concatenation` on two
shards holding the raw values `[1, 2]` and `[3]`. -/
theorem c1_weighted_merge_reproduces_concatenation_witness :
    ([[1, 2], [3]] : List (List ℚ)).flatten ≠ []
    ∧ (npAverage (([[1, 2], [3]] : List (List ℚ)).map listMean)
          (([[1, 2], [3]] : List (List ℚ)).map List.length) =
        .ok (listMean ([[1, 2], [3]] : List (List ℚ)).flatten)
      ∧ npAverage (([[1, 2], [3]] : List (List ℚ)).map listSqMean)
          (([[1, 2], [3]] : List (List ℚ)).map List.length) =
        .ok (listSqMean ([[1, 2], [3]] : List (List ℚ)).flatten)) :=
  ⟨by simp, c1_weighted_merge_reproduces_concatenation.1 [[1, 2], [3]] (by simp)⟩

theorem foldl_addFileAcc_means (es : List FileLang) (a : RedAcc) (k : MetricKey) :
    (es.foldl addFileAcc a).means k = a.means k ++ es.map (fun e => e.mean k) := by
  induction es generalizing a with
  | nil => simp
  | cons e es ih =>
    rw [List.foldl_cons, ih]
    have h : (addFileAcc a e).means k = a.means k ++ [e.mean k] := by
      cases k <;> rfl
    rw [h, List.append_assoc]
    rfl

theorem foldl_addFileAcc_sqs (es : List FileLang) (a : RedAcc) (k : MetricKey) :
    (es.foldl addFileAcc a).sqs k = a.sqs k ++ es.map (fun e => e.sqMean k) := by
  induction es generalizing a with
  | nil => simp
  | cons e es ih =>
    rw [List.foldl_cons, ih]
    have h : (addFileAcc a e).sqs k = a.sqs k ++ [e.sqMean k] := by
      cases k <;> rfl
    rw [h, List.append_assoc]
    rfl

theorem foldl_addFileAcc_docCounts (es : List FileLang) (a : RedAcc) :
    (es.foldl addFileAcc a).docCounts = a.docCounts ++ es.map (fun e => e.totalDocs) := by
  induction es generalizing a with
  | nil => simp
  | cons e es ih =>
    rw [List.foldl_cons, ih]
    rw [show (addFileAcc a e).docCounts = a.docCounts ++ [e.totalDocs] from rfl,
      List.append_assoc]
    rfl

theorem accOf_means (es : List FileLang) (k : MetricKey) :
    (accOf es).means k = es.map (fun e => e.mean k) := by
  rw [accOf, foldl_addFileAcc_means]
  cases k <;> rfl

theorem accOf_sqs (es : List FileLang) (k : MetricKey) :
    (accOf es).sqs k = es.map (fun e => e.sqMean k) := by
  rw [accOf, foldl_addFileAcc_sqs]
  cases k <;> rfl

theorem accOf_docCounts (es : List FileLang) :
    (accOf es).docCounts = es.map (fun e => e.totalDocs) := by
  rw [accOf, foldl_addFileAcc_docCounts]
  rfl

theorem finalizeAcc_ok_fields (a : RedAcc) (r : LangResult) (k : MetricKey)
    (h : finalizeAcc a = .ok r) :
    r.mean k = wavg (a.means k) a.docCounts
    ∧ r.var k = wavg (a.sqs k) a.docCounts - wavg (a.means k) a.docCounts ^ 2 := by
  by_cases hc : a.docCounts.sum = 0
  · rw [finalizeAcc, if_pos hc] at h
    exact absurd h (by simp)
  · rw [finalizeAcc, if_neg hc] at h
    simp only [Except.ok.injEq] at h
    rw [← h]
    cases k <;> exact ⟨rfl, rfl⟩

theorem honestFL_mean (vs : List ℚ) (k : MetricKey) : (honestFL vs).mean k = listMean vs := by
  cases k <;> rfl

theorem honestFL_sqMean (vs : List ℚ) (k : MetricKey) :
    (honestFL vs).sqMean k = listSqMean vs := by
  cases k <;> rfl

/-- C4 counterexample: line 266 does not clamp the variance before the
square root.  An artifact with `mean = 1, mean_sq = 0` makes the merged
radicand `-1`; `np.sqrt(-1)` is NaN (the `stdIsNaN` flag is true),
while the clamped radicand the spec prescribes would be `0`. -/
theorem c4_counterexample :
    reducedVarAt [[("en", inconsistentFL)]] "en" .hashWord = some (.ok (-1))
    ∧ Option.map (fun a => (finalizeAcc a).map (fun r => stdIsNaN r .hashWord))
        (lookupA (reduceFiles [[("en", inconsistentFL)]]) "en") = some (.ok true)
    ∧ specClampedRadicand (-1) = 0
    ∧ (-1 : ℚ) ≠ specClampedRadicand (-1) := by
  refine ⟨?_, ?_, ?_, ?_⟩
  · rw [reducedVarAt]
    norm_num [reduceFiles, stepFile, step1, setA, lookupA, addFileAcc, emptyRedAcc,
      inconsistentFL, mkFL, finalizeAcc, wavg, LangResult.var, RedAcc.means, RedAcc.sqs,
      Except.map, List.foldl, List.zipWith]
  · norm_num [reduceFiles, stepFile, step1, setA, lookupA, addFileAcc, emptyRedAcc,
      inconsistentFL, mkFL, finalizeAcc, wavg, LangResult.var, RedAcc.means, RedAcc.sqs,
      Except.map, List.foldl, List.zipWith, stdIsNaN]
  · rw [specClampedRadicand]
    exact max_eq_right (by norm_num)
  · rw [specClampedRadicand]
    norm_num

/-- C4 amended: the reported std is `np.sqrt` of the unclamped quantity
`E[X2] - E[X]^2` and is NaN exactly when that radicand is negative; the
radicand is provably nonnegative whenever every artifact contributes
the exact moments of a raw value list (the honest-artifact coupling),
so the missing clamp can only matter under floating-point rounding or
inconsistent artifacts. -/
theorem c4_variance_not_clamped :
    (∀ (a : RedAcc) (r : LangResult) (k : MetricKey), finalizeAcc a = .ok r →
      r.var k = wavg (a.sqs k) a.docCounts - wavg (a.means k) a.docCounts ^ 2
      ∧ (stdIsNaN r k = true ↔ r.var k < 0))
    ∧ (∀ (valss : List (List ℚ)) (r : LangResult) (k : MetricKey),
      finalizeAcc (accOf (valss.map honestFL)) = .ok r → 0 ≤ r.var k) := by
  constructor
  · intro a r k h
    refine ⟨(finalizeAcc_ok_fields a r k h).2, ?_⟩
    rw [stdIsNaN]
    exact decide_eq_true_iff
  · intro valss r k h
    rw [(finalizeAcc_ok_fields _ r k h).2, accOf_sqs, accOf_means, accOf_docCounts]
    rw [List.map_map, List.map_map, List.map_map]
    have h1 : (fun e => FileLang.sqMean e k) ∘ honestFL = listSqMean := by
      funext vs
      exact honestFL_sqMean vs k
    have h2 : (fun e => FileLang.mean e k) ∘ honestFL = listMean := by
      funext vs
      exact honestFL_mean vs k
    have h3 : (fun e => FileLang.totalDocs e) ∘ honestFL = List.length := by
      funext vs
      rfl
    rw [h1, h2, h3, wavg_of_means, wavg_of_sqMeans]
    exact listVar_nonneg valss.flatten

/-- Witness for `c4_variance_not_clamped` on one honest one-value shard. -/
theorem c4_variance_not_clamped_witness :
    finalizeAcc (accOf ([[(0 : ℚ)]].map honestFL)) =
      .ok ⟨0, 0, 0, 1, 0, 0, 0, 0, 0, 0, 0, 0, 0, 0, 0, 0, 0, 0, 0, 0, 0, 0, 0⟩
    ∧ 0 ≤ LangResult.var
        ⟨0, 0, 0, 1, 0, 0, 0, 0, 0, 0, 0, 0, 0, 0, 0, 0, 0, 0, 0, 0, 0, 0, 0⟩ .hashWord :=
  have h : finalizeAcc (accOf ([[(0 : ℚ)]].map honestFL)) =
      .ok ⟨0, 0, 0, 1, 0, 0, 0, 0, 0, 0, 0, 0, 0, 0, 0, 0, 0, 0, 0, 0, 0, 0, 0⟩ := by
    norm_num [honestFL, accOf, addFileAcc, emptyRedAcc, finalizeAcc, wavg, listMean,
      listSqMean, List.foldl, List.zipWith]
  ⟨h, c4_variance_not_clamped.2 [[0]] _ .hashWord h⟩

theorem optStep_nil (o : Option RedAcc) : optStep o [] = o := by
  cases o <;> rfl

theorem optStep_cons (o : Option RedAcc) (f : FileLang) (es : List FileLang) :
    optStep o (f :: es) = optStep (some (addFileAcc (o.getD emptyRedAcc) f)) es := by
  cases o <;> rfl

theorem optStep_append (o : Option RedAcc) (es₁ es₂ : List FileLang) :
    optStep o (es₁ ++ es₂) = optStep (optStep o es₁) es₂ := by
  induction es₁ generalizing o with
  | nil => rw [optStep_nil, List.nil_append]
  | cons f es ih =>
    rw [List.cons_append, optStep_cons, optStep_cons, ih]

theorem entriesInFile_cons (l : String) (p : String × FileLang) (fe : FileEntry) :
    entriesInFile l (p :: fe) =
      if p.1 = l then p.2 :: entriesInFile l fe else entriesInFile l fe := by
  rw [entriesInFile, entriesInFile]
  by_cases hp : p.1 = l
  · simp [List.filter_cons, hp]
  · simp [List.filter_cons, hp]

theorem lookup_step1 (m : List (String × RedAcc)) (l : String) (f : FileLang) (l2 : String) :
    lookupA (step1 m l f) l2 =
      if l = l2 then some (addFileAcc ((lookupA m l).getD emptyRedAcc) f)
      else lookupA m l2 := by
  rw [step1, lookupA_setA]

theorem lookup_stepFile (fe : FileEntry) (m : List (String × RedAcc)) (l : String) :
    lookupA (stepFile m fe) l = optStep (lookupA m l) (entriesInFile l fe) := by
  induction fe generalizing m with
  | nil => rw [stepFile, List.foldl_nil, entriesInFile, List.filter_nil, List.map_nil,
      optStep_nil]
  | cons p fe ih =>
    rw [stepFile, List.foldl_cons, entriesInFile_cons]
    rw [show List.foldl (fun m q => step1 m q.1 q.2) (step1 m p.1 p.2) fe =
      stepFile (step1 m p.1 p.2) fe from rfl]
    rw [ih]
    by_cases hp : p.1 = l
    · rw [if_pos hp, lookup_step1, if_pos hp, optStep_cons]
      rw [hp]
    · rw [if_neg hp, lookup_step1, if_neg hp]

theorem lookup_foldl_stepFile (files : List FileEntry) (m : List (String × RedAcc))
    (l : String) :
    lookupA (files.foldl stepFile m) l = optStep (lookupA m l) (entriesFor l files) := by
  induction files generalizing m with
  | nil => rw [List.foldl_nil, entriesFor, optStep_nil]
  | cons fe files ih =>
    rw [List.foldl_cons, ih, lookup_stepFile, entriesFor, optStep_append]

theorem lookup_reduceFiles (files : List FileEntry) (l : String) :
    lookupA (reduceFiles files) l = optStep none (entriesFor l files) := by
  rw [reduceFiles, lookup_foldl_stepFile]
  rfl

theorem entriesFor_perm (l : String) {files₁ files₂ : List FileEntry}
    (h : files₁.Perm files₂) : (entriesFor l files₁).Perm (entriesFor l files₂) := by
  induction h with
  | nil => exact List.Perm.refl _
  | cons fe h ih =>
    rw [entriesFor, entriesFor]
    exact ih.append_left _
  | swap fe1 fe2 t =>
    rw [entriesFor, entriesFor, entriesFor, entriesFor]
    exact List.perm_append_comm_assoc _ _ _
  | trans h1 h2 ih1 ih2 => exact ih1.trans ih2

theorem foldl_addFileAcc_totalWords (es : List FileLang) (a : RedAcc) :
    (es.foldl addFileAcc a).totalWords = a.totalWords + (es.map (fun e => e.totalWords)).sum := by
  induction es generalizing a with
  | nil => simp
  | cons e es ih =>
    rw [List.foldl_cons, ih]
    rw [show (addFileAcc a e).totalWords = a.totalWords + e.totalWords from rfl]
    simp [Nat.add_assoc]

theorem foldl_addFileAcc_totalDocs (es : List FileLang) (a : RedAcc) :
    (es.foldl addFileAcc a).totalDocs = a.totalDocs + (es.map (fun e => e.totalDocs)).sum := by
  induction es generalizing a with
  | nil => simp
  | cons e es ih =>
    rw [List.foldl_cons, ih]
    rw [show (addFileAcc a e).totalDocs = a.totalDocs + e.totalDocs from rfl]
    simp [Nat.add_assoc]

theorem foldl_addFileAcc_totalBytes (es : List FileLang) (a : RedAcc) :
    (es.foldl addFileAcc a).totalBytes = a.totalBytes + (es.map (fun e => e.totalBytes)).sum := by
  induction es generalizing a with
  | nil => simp
  | cons e es ih =>
    rw [List.foldl_cons, ih]
    rw [show (addFileAcc a e).totalBytes = a.totalBytes + e.totalBytes from rfl]
    simp [Nat.add_assoc]

theorem foldl_addFileAcc_lengthCounter (es : List FileLang) (a : RedAcc) :
    (es.foldl addFileAcc a).lengthCounter =
      a.lengthCounter + (es.map (fun e => e.lengthCounter)).sum := by
  induction es generalizing a with
  | nil => simp
  | cons e es ih =>
    rw [List.foldl_cons, ih]
    rw [show (addFileAcc a e).lengthCounter = a.lengthCounter + e.lengthCounter from rfl]
    simp [add_assoc]

theorem foldl_addFileAcc_wordCounter (es : List FileLang) (a : RedAcc) :
    (es.foldl addFileAcc a).wordCounter =
      a.wordCounter + (es.map (fun e => e.wordCounter)).sum := by
  induction es generalizing a with
  | nil => simp
  | cons e es ih =>
    rw [List.foldl_cons, ih]
    rw [show (addFileAcc a e).wordCounter = a.wordCounter + e.wordCounter from rfl]
    simp [add_assoc]

theorem finalize_accOf_perm {es₁ es₂ : List FileLang} (hp : es₁.Perm es₂) :
    finalizeAcc (accOf es₁) = finalizeAcc (accOf es₂) := by
  have hdc : (accOf es₁).docCounts.sum = (accOf es₂).docCounts.sum := by
    rw [accOf_docCounts, accOf_docCounts]
    exact (hp.map _).sum_eq
  have hw : ∀ f : FileLang → ℚ,
      wavg (es₁.map f) (es₁.map (fun e => e.totalDocs)) =
        wavg (es₂.map f) (es₂.map (fun e => e.totalDocs)) := by
    intro f
    rw [wavg, wavg, zipWith_cast_mul, zipWith_cast_mul, (hp.map _).sum_eq]
    have : (es₁.map (fun e => e.totalDocs)).sum = (es₂.map (fun e => e.totalDocs)).sum :=
      (hp.map _).sum_eq
    rw [this]
  have hm : ∀ k, wavg ((accOf es₁).means k) (accOf es₁).docCounts =
      wavg ((accOf es₂).means k) (accOf es₂).docCounts := by
    intro k
    rw [accOf_means, accOf_means, accOf_docCounts, accOf_docCounts]
    exact hw _
  have hs : ∀ k, wavg ((accOf es₁).sqs k) (accOf es₁).docCounts =
      wavg ((accOf es₂).sqs k) (accOf es₂).docCounts := by
    intro k
    rw [accOf_sqs, accOf_sqs, accOf_docCounts, accOf_docCounts]
    exact hw _
  have hv : ∀ k, wavg ((accOf es₁).sqs k) (accOf es₁).docCounts -
      wavg ((accOf es₁).means k) (accOf es₁).docCounts ^ 2 =
      wavg ((accOf es₂).sqs k) (accOf es₂).docCounts -
        wavg ((accOf es₂).means k) (accOf es₂).docCounts ^ 2 := by
    intro k
    rw [hs k, hm k]
  have hlc : (accOf es₁).lengthCounter = (accOf es₂).lengthCounter := by
    rw [accOf, accOf, foldl_addFileAcc_lengthCounter, foldl_addFileAcc_lengthCounter]
    rw [(hp.map _).sum_eq]
  have hwc : (accOf es₁).wordCounter = (accOf es₂).wordCounter := by
    rw [accOf, accOf, foldl_addFileAcc_wordCounter, foldl_addFileAcc_wordCounter]
    rw [(hp.map _).sum_eq]
  have htw : (accOf es₁).totalWords = (accOf es₂).totalWords := by
    rw [accOf, accOf, foldl_addFileAcc_totalWords, foldl_addFileAcc_totalWords]
    rw [(hp.map _).sum_eq]
  have htd : (accOf es₁).totalDocs = (accOf es₂).totalDocs := by
    rw [accOf, accOf, foldl_addFileAcc_totalDocs, foldl_addFileAcc_totalDocs]
    rw [(hp.map _).sum_eq]
  have htb : (accOf es₁).totalBytes = (accOf es₂).totalBytes := by
    rw [accOf, accOf, foldl_addFileAcc_totalBytes, foldl_addFileAcc_totalBytes]
    rw [(hp.map _).sum_eq]
  by_cases hc : (accOf es₁).docCounts.sum = 0
  · rw [finalizeAcc, finalizeAcc, if_pos hc, if_pos (hdc ▸ hc)]
  · rw [finalizeAcc, finalizeAcc, if_neg hc, if_neg (hdc ▸ hc)]
    simp only [Except.ok.injEq, LangResult.mk.injEq]
    refine ⟨hlc, hwc, htw, htd, htb, hm .hashWord, hm .ellipsisWord, hm .bulletStart,
      hm .ellipsisEnd, hm .alpha, hm .linePunct, hm .shortLine, hm .dupLine, hm .newLine,
      hv .hashWord, hv .ellipsisWord, hv .bulletStart, hv .ellipsisEnd, hv .alpha,
      hv .linePunct, hv .shortLine, hv .dupLine, hv .newLine⟩

theorem mergeAcc_empty_right (a : RedAcc) : mergeAcc a emptyRedAcc = a := by
  rcases a
  simp [mergeAcc, emptyRedAcc]

theorem mergeAcc_addFileAcc (a c : RedAcc) (e : FileLang) :
    mergeAcc (addFileAcc a e) c = mergeAcc a (mergeAcc (addFileAcc emptyRedAcc e) c) := by
  rcases a
  rcases c
  simp [mergeAcc, addFileAcc, emptyRedAcc, add_assoc]

theorem foldl_addFileAcc_eq_mergeAcc (es : List FileLang) (a : RedAcc) :
    es.foldl addFileAcc a = mergeAcc a (accOf es) := by
  induction es generalizing a with
  | nil => rw [List.foldl_nil, accOf, List.foldl_nil, mergeAcc_empty_right]
  | cons e es ih =>
    rw [List.foldl_cons, ih]
    have hr : accOf (e :: es) = mergeAcc (addFileAcc emptyRedAcc e) (accOf es) := by
      rw [accOf, List.foldl_cons, ih]
    rw [hr]
    exact mergeAcc_addFileAcc a (accOf es) e

theorem accOf_append (es₁ es₂ : List FileLang) :
    accOf (es₁ ++ es₂) = mergeAcc (accOf es₁) (accOf es₂) := by
  rw [accOf, List.foldl_append, ← accOf, foldl_addFileAcc_eq_mergeAcc]

theorem treeAcc_eq_accOf (t : MergeTree) : treeAcc t = accOf t.toList := by
  induction t with
  | leaf f => rfl
  | node a b iha ihb =>
    rw [treeAcc, MergeTree.toList, accOf_append, iha, ihb]

/-- C2: the reducer merge is order independent: for any permutation of
the artifact files the per-key finalized Global Aggregate (histograms,
counters, and ratio mean/variance, hence std) is identical; and any
grouping of the contributions of one key into repeated pairwise merges
(a merge tree) finalizes to the same result as the flat left fold over
any permutation of those contributions.  In this exact-rational model
the equality is exact, which implies the floating-point-tolerance
reading of the claim. -/
theorem c2_merge_order_grouping_independent :
    (∀ (files₁ files₂ : List FileEntry), files₁.Perm files₂ → ∀ l : String,
      Option.map finalizeAcc (lookupA (reduceFiles files₁) l) =
        Option.map finalizeAcc (lookupA (reduceFiles files₂) l))
    ∧ (∀ (t : MergeTree) (es : List FileLang), t.toList.Perm es →
      finalizeAcc (treeAcc t) = finalizeAcc (accOf es)) := by
  constructor
  · intro f1 f2 hp l
    rw [lookup_reduceFiles, lookup_reduceFiles]
    have hpe := entriesFor_perm l hp
    by_cases h1 : entriesFor l f1 = []
    · have h2 : entriesFor l f2 = [] := (h1 ▸ hpe).symm.eq_nil
      rw [h1, h2]
    · have h2 : entriesFor l f2 ≠ [] := by
        intro h0
        exact h1 (h0 ▸ hpe).eq_nil
      rw [optStep, optStep]
      rw [if_neg (by simpa [List.isEmpty_iff] using h1),
        if_neg (by simpa [List.isEmpty_iff] using h2)]
      show some (finalizeAcc (accOf (entriesFor l f1))) =
        some (finalizeAcc (accOf (entriesFor l f2)))
      exact congrArg some (finalize_accOf_perm hpe)
  · intro t es hp
    rw [treeAcc_eq_accOf]
    exact finalize_accOf_perm hp


/-- Witness for `c2_merge_order_grouping_independent` on the two
concrete shards, swapped, and on a two-leaf merge tree. -/
theorem c2_merge_order_grouping_independent_witness :
    ([[("en", shardA)], [("en", shardB)]] : List FileEntry).Perm
      [[("en", shardB)], [("en", shardA)]]
    ∧ Option.map finalizeAcc
        (lookupA (reduceFiles [[("en", shardA)], [("en", shardB)]]) "en") =
      Option.map finalizeAcc
        (lookupA (reduceFiles [[("en", shardB)], [("en", shardA)]]) "en")
    ∧ (MergeTree.node (.leaf shardA) (.leaf shardB)).toList.Perm [shardB, shardA]
    ∧ finalizeAcc (treeAcc (MergeTree.node (.leaf shardA) (.leaf shardB))) =
        finalizeAcc (accOf [shardB, shardA]) :=
  have hp1 : ([[("en", shardA)], [("en", shardB)]] : List FileEntry).Perm
      [[("en", shardB)], [("en", shardA)]] := List.Perm.swap _ _ _
  have hp2 : (MergeTree.node (.leaf shardA) (.leaf shardB)).toList.Perm
      [shardB, shardA] := List.Perm.swap _ _ _
  ⟨hp1, c2_merge_order_grouping_independent.1 _ _ hp1 "en", hp2,
    c2_merge_order_grouping_independent.2 _ _ hp2⟩
